import Mathlib

/-!
Verification development for the AIPlay Qt plugin framework
(`PluginMetadata.cpp`, `PluginManager.cpp`, `PluginCommunication.cpp`).
The definitions below are a shallow embedding of the C++ source: JSON
metadata values, the manager's registry state, and the lifecycle
operations (`loadPlugin`, `initializePlugin` — embedded as `initPlugin` —
`activatePlugin`, `deactivatePlugin`, `unloadPlugin`, `shutdown`,
`scanForPlugins`, `sortPluginsByDependency`).  External effects (plugin
hooks, the dynamic module loader, the metadata files on disk, the
message-bus purge) are parameters collected in `Env`; every external
call and every emitted Qt signal is recorded in an event trace, so
temporal claims are statements about that trace.  Recursion without a
structural bound in the C++ (dependency walks) is embedded with an
explicit fuel parameter; a `none` result models non-termination /
fuel exhaustion.
-/

namespace AIPlay

/-- A scalar QJsonValue inside an array; the metadata code only ever
reads array elements through `QJsonValue::toString`, so nested
containers are not needed for the embedding. -/
inductive JAtom where
  | astr (s : String)
  | anum (n : Int)
  | abool (b : Bool)
  | anull
deriving DecidableEq

/-- A QJsonValue, restricted to the shapes the metadata code inspects. -/
inductive JVal where
  | jstr (s : String)
  | jnum (n : Int)
  | jbool (b : Bool)
  | jarr (elems : List JAtom)
  | jnull
deriving DecidableEq

/-- A QJsonObject: association list of field name to value. -/
abbrev JObj := List (String × JVal)

/-- `QJsonObject::value` (absent key gives Undefined, modelled as `none`). -/
def jValue : JObj → String → Option JVal
  | [], _ => none
  | (k', v) :: rest, k => if k = k' then some v else jValue rest k

/-- `QJsonObject::contains`. -/
def jContains (o : JObj) (k : String) : Bool := decide (jValue o k ≠ none)

/-- `QJsonValue::toString()`: the string content, or a null string for
non-string values and for the Undefined value. -/
def jvalToString : Option JVal → String
  | some (JVal.jstr s) => s
  | _ => ""

/-- `QJsonValue::toString(defaultValue)`: the string content, or the
supplied default for non-string values / Undefined. -/
def jvalToStringD (d : String) : Option JVal → String
  | some (JVal.jstr s) => s
  | _ => d

/-- `QJsonValue::toArray()`: the elements, or empty for non-arrays. -/
def jvalToArr : Option JVal → List JAtom
  | some (JVal.jarr l) => l
  | _ => []

/-- `QJsonValue::toString()` on an array element. -/
def atomToString : JAtom → String
  | JAtom.astr s => s
  | _ => ""

/-- Split a character list on a separator character, as
`QString::split` does (keeping empty parts). -/
def splitOnChar (sep : Char) : List Char → List (List Char)
  | [] => [[]]
  | c :: cs =>
    if c = sep then [] :: splitOnChar sep cs
    else
      match splitOnChar sep cs with
      | [] => [[c]]
      | seg :: rest => (c :: seg) :: rest

/-- Parse one numeric version segment (all digits, non-empty). -/
def segToNat : List Char → Option Nat
  | [] => none
  | seg =>
    if seg.all Char.isDigit then
      some (seg.foldl (fun acc c => acc * 10 + (c.toNat - 48)) 0)
    else none

/-- Leading numeric segments; `QVersionNumber::fromString` stops at the
first segment that is not a plain number (the rest is the suffix). -/
def parseSegs : List (List Char) → List Nat
  | [] => []
  | seg :: rest =>
    match segToNat seg with
    | some n => n :: parseSegs rest
    | none => []

/-- `QVersionNumber::fromString`: dot-separated numeric segments. -/
def versionFromString (s : String) : List Nat :=
  parseSegs (splitOnChar '.' s.data)

/-- `QVersionNumber::compare`: segment-wise; when one sequence is a
prefix of the other, the one with more segments is larger. -/
def vcmp : List Nat → List Nat → Ordering
  | [], [] => Ordering.eq
  | [], _ :: _ => Ordering.lt
  | _ :: _, [] => Ordering.gt
  | a :: as, b :: bs =>
    if a < b then Ordering.lt
    else if b < a then Ordering.gt
    else vcmp as bs

/-- `v1 >= v2` on QVersionNumbers. -/
def versionGE (a b : List Nat) : Bool := decide (vcmp a b ≠ Ordering.lt)

/-- `PluginMetadata`: the stored JSON object plus the validity flag. -/
structure PluginMetadata where
  m_metadata : JObj
  m_isValid : Bool
deriving DecidableEq

namespace PluginMetadata

/-- The validity computation shared by the json constructor and
`loadFromString`: the object is non-empty and contains the four
required fields (presence only; types are not inspected). -/
def requiredOk (o : JObj) : Bool :=
  !o.isEmpty && jContains o "id" && jContains o "name" &&
    jContains o "version" && jContains o "vendor"

/-- `PluginMetadata()` : empty object, invalid. -/
def mkDefault : PluginMetadata := ⟨[], false⟩

/-- `PluginMetadata(const QJsonObject&)` / the successful-parse tail of
`loadFromString`: store the object and compute validity. -/
def ofJson (o : JObj) : PluginMetadata := ⟨o, requiredOk o⟩

/-- `loadFromString`, taking the result of `QJsonDocument::fromJson`
(`none` models a null document or a non-object document). -/
def loadFromString (parsed : Option JObj) (m : PluginMetadata) :
    Bool × PluginMetadata :=
  match parsed with
  | none => (false, { m with m_isValid := false })
  | some o => (requiredOk o, ofJson o)

def isValid (m : PluginMetadata) : Bool := m.m_isValid

def getPluginId (m : PluginMetadata) : String :=
  jvalToString (jValue m.m_metadata "id")

def getPluginDependencies (m : PluginMetadata) : List String :=
  (jvalToArr (jValue m.m_metadata "dependencies")).map atomToString

def getMinFrameworkVersion (m : PluginMetadata) : String :=
  jvalToStringD "1.0.0" (jValue m.m_metadata "minFrameworkVersion")

def isCompatibleWithFramework (m : PluginMetadata) (fw : String) : Bool :=
  if !m.m_isValid then false
  else versionGE (versionFromString fw)
    (versionFromString m.getMinFrameworkVersion)

def dependsOn (m : PluginMetadata) (pid : String) : Bool :=
  decide (pid ∈ m.getPluginDependencies)

end PluginMetadata

/-- The plugin lifecycle states, in declaration order (so that the
default-constructed value a QMap materialises is `NotLoaded`). -/
inductive PluginState where
  | NotLoaded
  | Loaded
  | Initialized
  | Active
  | Inactive
  | Failed
deriving DecidableEq

/-- Result of one plugin lifecycle hook call: returned true, returned
false, or threw (the message of the caught exception). -/
inductive HookRes where
  | ok
  | fail
  | exn (msg : String)
deriving DecidableEq

/-- Outcome of the QPluginLoader load / instance / qobject-cast chain. -/
inductive LoadOut where
  | loadFail (err : String)
  | noInstance (err : String)
  | notContract
  | okLoad
deriving DecidableEq

/-- Externally observable steps: hook invocations, loader and bus
calls, and the Qt signals the manager emits. -/
inductive Event where
  | hookInitialize (pid : String)
  | hookActivate (pid : String)
  | hookDeactivate (pid : String)
  | hookShutdown (pid : String)
  | loaderLoad (pid : String)
  | loaderRelease (pid : String)
  | busPurge (pid : String)
  | pluginLoaded (pid : String)
  | pluginUnloaded (pid : String)
  | pluginInitialized (pid : String)
  | pluginActivated (pid : String)
  | pluginDeactivated (pid : String)
  | pluginFailed (pid : String) (msg : String)
deriving DecidableEq

/-- The environment: behaviour of plugin hooks, of the module loader,
of the metadata files on disk, and of the module release. -/
structure Env where
  initHook : String → HookRes
  activateHook : String → HookRes
  deactivateHook : String → HookRes
  shutdownHook : String → Bool
  releaseOk : String → Bool
  metaFile : String → Option JObj
  libExists : String → Bool
  loadOut : String → LoadOut

/-- The manager state: `m_initialized`, the key set of `m_plugins`
and of `m_pluginLoaders`, the state map (total, defaulting to
`NotLoaded` exactly as `QMap::operator[]` / `value` do), the metadata
registry, the communication-bus handler keys, and the event trace. -/
structure MS where
  m_initialized : Bool
  m_plugins : List String
  m_pluginLoaders : List String
  m_pluginStates : String → PluginState
  m_pluginMetadata : List (String × PluginMetadata)
  m_handlers : List String
  trace : List Event

/-- `const QString m_frameworkVersion = "1.0.0"`. -/
def frameworkVersion : String := "1.0.0"

/-- QMap insert keyed by string, keeping ascending key order. -/
def keyInsert (k : String) (v : PluginMetadata) :
    List (String × PluginMetadata) → List (String × PluginMetadata)
  | [] => [(k, v)]
  | (k', v') :: rest =>
    if k = k' then (k, v) :: rest
    else if k < k' then (k, v) :: (k', v') :: rest
    else (k', v') :: keyInsert k v rest

/-- QMap insert for a key-only map (`m_plugins` / `m_pluginLoaders`). -/
def ksInsert (k : String) : List String → List String
  | [] => [k]
  | k' :: rest =>
    if k = k' then k' :: rest
    else if k < k' then k :: k' :: rest
    else k' :: ksInsert k rest

/-- Association-list lookup (`QMap::value` for the metadata map). -/
def mdLookup : List (String × PluginMetadata) → String → Option PluginMetadata
  | [], _ => none
  | (k', v) :: rest, k => if k = k' then some v else mdLookup rest k

namespace MS

def setState (s : MS) (pid : String) (st : PluginState) : MS :=
  { s with m_pluginStates := fun q => if q = pid then st else s.m_pluginStates q }

def emitEvent (s : MS) (e : Event) : MS :=
  { s with trace := s.trace ++ [e] }

/-- `m_pluginMetadata.contains`. -/
def mdContains (s : MS) (pid : String) : Bool :=
  decide (mdLookup s.m_pluginMetadata pid ≠ none)

/-- `m_pluginMetadata[pid]` — `QMap::operator[]` inserts a
default-constructed entry when the key is absent. -/
def metadataAt (s : MS) (pid : String) : PluginMetadata × MS :=
  match mdLookup s.m_pluginMetadata pid with
  | some m => (m, s)
  | none =>
    (PluginMetadata.mkDefault,
      { s with m_pluginMetadata :=
          keyInsert pid PluginMetadata.mkDefault s.m_pluginMetadata })

/-- `PluginManager::isPluginLoaded`. -/
def isPluginLoaded (s : MS) (pid : String) : Bool :=
  if !s.m_initialized then false else decide (pid ∈ s.m_plugins)

/-- `PluginManager::isPluginActive`. -/
def isPluginActive (s : MS) (pid : String) : Bool :=
  if !s.m_initialized then false
  else decide (s.m_pluginStates pid = PluginState.Active)

/-- `PluginManager::getDependentPlugins`: every other id whose
registered metadata declares a dependency on `pid`. -/
def getDependentPlugins (s : MS) (pid : String) : List String :=
  (s.m_pluginMetadata.filter
    (fun p => p.1 ≠ pid && p.2.dependsOn pid)).map Prod.fst

end MS

/-- Does a bus handler key (of the form `pluginId:messageType`) belong
to `pid`?  Mirrors the split-and-compare in
`unregisterAllMessageHandlers`. -/
def handlerOwnedBy (pid key : String) : Bool :=
  match splitOnChar ':' key.data with
  | [a, _] => decide (String.mk a = pid)
  | _ => false

/-- `PluginCommunication::unregisterAllMessageHandlers`: drop every
handler whose key splits as `pid:messageType`. -/
def MS.purgeHandlers (s : MS) (pid : String) : MS :=
  { s with m_handlers := s.m_handlers.filter (fun key => !handlerOwnedBy pid key) }

/-- Convenience: the dependency list the manager would read for `pid`
(registered metadata, or empty when none is registered). -/
def depsOfState (s : MS) (pid : String) : List String :=
  match mdLookup s.m_pluginMetadata pid with
  | some m => m.getPluginDependencies
  | none => []

/-- `PluginManager::loadPluginMetadata`.  `env.metaFile pid = none`
covers a missing, unreadable or unparsable `<pid>.json`; otherwise the
parsed object is validated and the id is matched before the registry
entry is stored. -/
def loadPluginMetadata (env : Env) (s : MS) (pid : String) : Bool × MS :=
  match env.metaFile pid with
  | none => (false, s)
  | some o =>
    let md := PluginMetadata.ofJson o
    if !md.isValid then (false, s)
    else if md.getPluginId ≠ pid then (false, s)
    else (true, { s with m_pluginMetadata := keyInsert pid md s.m_pluginMetadata })

/-- Dependency loop of `PluginManager::checkPluginDependencies`:
fetch each dependency's metadata on demand and require framework
compatibility. -/
def checkDepsGo (env : Env) : MS → List String → Bool × MS
  | s, [] => (true, s)
  | s, dep :: rest =>
    let p := if s.mdContains dep then (true, s) else loadPluginMetadata env s dep
    if !p.1 then (false, p.2)
    else
      let q := p.2.metadataAt dep
      if !(q.1.isCompatibleWithFramework frameworkVersion) then (false, q.2)
      else checkDepsGo env q.2 rest

/-- `PluginManager::checkPluginDependencies`. -/
def checkPluginDependencies (env : Env) (s : MS) (pid : String) : Bool × MS :=
  if !s.mdContains pid then (false, s)
  else
    let q := s.metadataAt pid
    checkDepsGo env q.2 q.1.getPluginDependencies

/-- `PluginManager::loadPlugin`. -/
def loadPlugin (env : Env) (s : MS) (pid : String) : Bool × MS :=
  if !s.m_initialized then (false, s)
  else if s.isPluginLoaded pid then (true, s)
  else
    let p := if s.mdContains pid then (true, s) else loadPluginMetadata env s pid
    if !p.1 then (false, p.2)
    else
      let q := p.2.metadataAt pid
      let md := q.1
      let s₂ := q.2
      if !(md.isCompatibleWithFramework frameworkVersion) then
        (false, (s₂.setState pid PluginState.Failed).emitEvent
          (Event.pluginFailed pid ("Incompatible with framework version " ++ frameworkVersion)))
      else
        let r := checkPluginDependencies env s₂ pid
        if !r.1 then
          (false, (r.2.setState pid PluginState.Failed).emitEvent
            (Event.pluginFailed pid "Unsatisfied dependencies"))
        else if !env.libExists md.getPluginId then
          (false, (r.2.setState pid PluginState.Failed).emitEvent
            (Event.pluginFailed pid "Plugin library not found"))
        else
          let s₃ := r.2.emitEvent (Event.loaderLoad md.getPluginId)
          match env.loadOut md.getPluginId with
          | LoadOut.loadFail e =>
            (false, (s₃.setState pid PluginState.Failed).emitEvent
              (Event.pluginFailed pid ("Failed to load: " ++ e)))
          | LoadOut.noInstance e =>
            (false, (s₃.setState pid PluginState.Failed).emitEvent
              (Event.pluginFailed pid ("Failed to get instance: " ++ e)))
          | LoadOut.notContract =>
            (false, (s₃.setState pid PluginState.Failed).emitEvent
              (Event.pluginFailed pid "Does not implement IPlugin interface"))
          | LoadOut.okLoad =>
            (true, (({ s₃ with
                m_pluginLoaders := ksInsert pid s₃.m_pluginLoaders,
                m_plugins := ksInsert pid s₃.m_plugins }).setState pid
                  PluginState.Loaded).emitEvent (Event.pluginLoaded pid))

/-- Dependency loop of `PluginManager::initializePlugin`: auto-load
then recursively ensure each dependency is initialized; `recur` is the
recursive call at the remaining fuel. -/
def initDepsGo (env : Env)
    (recur : MS → String → Option (Bool × MS)) :
    MS → String → List String → Option (Bool × MS)
  | s, _, [] => some (true, s)
  | s, pid, dep :: rest =>
    let p := if s.isPluginLoaded dep then (true, s) else loadPlugin env s dep
    if !p.1 then
      some (false, (p.2.setState pid PluginState.Failed).emitEvent
        (Event.pluginFailed pid ("Failed to load dependency: " ++ dep)))
    else if p.2.m_pluginStates dep ≠ PluginState.Initialized ∧
        p.2.m_pluginStates dep ≠ PluginState.Active then
      match recur p.2 dep with
      | none => none
      | some (false, s₂) =>
        some (false, (s₂.setState pid PluginState.Failed).emitEvent
          (Event.pluginFailed pid ("Failed to initialize dependency: " ++ dep)))
      | some (true, s₂) => initDepsGo env recur s₂ pid rest
    else initDepsGo env recur p.2 pid rest

/-- `PluginManager::initializePlugin`, with explicit recursion fuel. -/
def initPlugin (env : Env) : Nat → MS → String → Option (Bool × MS)
  | 0, _, _ => none
  | Nat.succ fuel, s, pid =>
    if !s.m_initialized then some (false, s)
    else if !s.isPluginLoaded pid then some (false, s)
    else if s.m_pluginStates pid = PluginState.Initialized ∨
        s.m_pluginStates pid = PluginState.Active then some (true, s)
    else if s.m_pluginStates pid = PluginState.Failed then some (false, s)
    else
      let q := s.metadataAt pid
      match initDepsGo env (initPlugin env fuel) q.2 pid q.1.getPluginDependencies with
      | none => none
      | some (false, s₂) => some (false, s₂)
      | some (true, s₂) =>
        let s₃ := s₂.emitEvent (Event.hookInitialize pid)
        match env.initHook pid with
        | HookRes.ok =>
          some (true, (s₃.setState pid PluginState.Initialized).emitEvent
            (Event.pluginInitialized pid))
        | HookRes.fail =>
          some (false, (s₃.setState pid PluginState.Failed).emitEvent
            (Event.pluginFailed pid "Failed to initialize"))
        | HookRes.exn m =>
          some (false, (s₃.setState pid PluginState.Failed).emitEvent
            (Event.pluginFailed pid ("Exception during initialization: " ++ m)))

/-- Dependency loop of `PluginManager::activatePlugin`. -/
def actDepsGo (recur : MS → String → Option (Bool × MS)) :
    MS → List String → Option (Bool × MS)
  | s, [] => some (true, s)
  | s, dep :: rest =>
    if s.m_pluginStates dep ≠ PluginState.Active then
      match recur s dep with
      | none => none
      | some (false, s₁) => some (false, s₁)
      | some (true, s₁) => actDepsGo recur s₁ rest
    else actDepsGo recur s rest

/-- `PluginManager::activatePlugin`, with explicit recursion fuel. -/
def activatePlugin (env : Env) : Nat → MS → String → Option (Bool × MS)
  | 0, _, _ => none
  | Nat.succ fuel, s, pid =>
    if !s.m_initialized then some (false, s)
    else if !s.isPluginLoaded pid then some (false, s)
    else if s.m_pluginStates pid = PluginState.Active then some (true, s)
    else if s.m_pluginStates pid = PluginState.Failed then some (false, s)
    else
      let initRes := if s.m_pluginStates pid ≠ PluginState.Initialized then
          initPlugin env (Nat.succ fuel) s pid
        else some (true, s)
      match initRes with
      | none => none
      | some (false, s₁) => some (false, s₁)
      | some (true, s₁) =>
        let q := s₁.metadataAt pid
        match actDepsGo (activatePlugin env fuel) q.2 q.1.getPluginDependencies with
        | none => none
        | some (false, s₃) => some (false, s₃)
        | some (true, s₃) =>
          let s₄ := s₃.emitEvent (Event.hookActivate pid)
          match env.activateHook pid with
          | HookRes.ok =>
            some (true, (s₄.setState pid PluginState.Active).emitEvent
              (Event.pluginActivated pid))
          | HookRes.fail =>
            some (false, (s₄.setState pid PluginState.Failed).emitEvent
              (Event.pluginFailed pid "Failed to activate"))
          | HookRes.exn m =>
            some (false, (s₄.setState pid PluginState.Failed).emitEvent
              (Event.pluginFailed pid ("Exception during activation: " ++ m)))

/-- Collection loop of `PluginManager::deactivatePlugin`: walk the
`m_plugins` keys and gather the other currently-active plugins whose
metadata (fetched with `operator[]`) depends on `pid`. -/
def collectDepsGo (pid : String) :
    List String → MS → List String → List String × MS
  | [], st, acc => (acc, st)
  | k :: ks, st, acc =>
    if k ≠ pid ∧ st.m_pluginStates k = PluginState.Active then
      let q := st.metadataAt k
      if q.1.dependsOn pid then collectDepsGo pid ks q.2 (acc ++ [k])
      else collectDepsGo pid ks q.2 acc
    else collectDepsGo pid ks st acc

/-- The dependent-collection step of `deactivatePlugin`. -/
def collectActiveDependents (s : MS) (pid : String) : List String × MS :=
  collectDepsGo pid s.m_plugins s []

/-- Dependent-deactivation loop of `PluginManager::deactivatePlugin`. -/
def deactDepsGo (recur : MS → String → Option (Bool × MS)) :
    MS → List String → Option (Bool × MS)
  | s, [] => some (true, s)
  | s, dep :: rest =>
    match recur s dep with
    | none => none
    | some (false, s₁) => some (false, s₁)
    | some (true, s₁) => deactDepsGo recur s₁ rest

/-- `PluginManager::deactivatePlugin`, with explicit recursion fuel.
A failing or throwing deactivate hook returns failure and leaves the
state map untouched. -/
def deactivatePlugin (env : Env) : Nat → MS → String → Option (Bool × MS)
  | 0, _, _ => none
  | Nat.succ fuel, s, pid =>
    if !s.m_initialized then some (false, s)
    else if !s.isPluginLoaded pid then some (false, s)
    else if s.m_pluginStates pid ≠ PluginState.Active then some (true, s)
    else
      let c := collectActiveDependents s pid
      match deactDepsGo (deactivatePlugin env fuel) c.2 c.1 with
      | none => none
      | some (false, s₂) => some (false, s₂)
      | some (true, s₂) =>
        let s₃ := s₂.emitEvent (Event.hookDeactivate pid)
        match env.deactivateHook pid with
        | HookRes.ok =>
          some (true, (s₃.setState pid PluginState.Initialized).emitEvent
            (Event.pluginDeactivated pid))
        | HookRes.fail => some (false, s₃)
        | HookRes.exn _ => some (false, s₃)

/-- Tail of `PluginManager::unloadPlugin`: purge the bus handlers,
then attempt to release the module handle; on success drop the loader
and instance entries, reset the state and emit the signal. -/
def unloadTail (env : Env) (s : MS) (pid : String) : Bool × MS :=
  let s₁ := (s.purgeHandlers pid).emitEvent (Event.busPurge pid)
  let s₂ := s₁.emitEvent (Event.loaderRelease pid)
  if !env.releaseOk pid then (false, s₂)
  else
    (true, (({ s₂ with
        m_pluginLoaders := s₂.m_pluginLoaders.erase pid,
        m_plugins := s₂.m_plugins.erase pid }).setState pid
          PluginState.NotLoaded).emitEvent (Event.pluginUnloaded pid))

/-- `PluginManager::unloadPlugin` (fuel feeds the nested recursive
deactivation). -/
def unloadPlugin (env : Env) (fuel : Nat) (s : MS) (pid : String) :
    Option (Bool × MS) :=
  if !s.m_initialized then some (false, s)
  else if !s.isPluginLoaded pid then some (true, s)
  else if !(s.getDependentPlugins pid).isEmpty then some (false, s)
  else
    let dRes := if s.isPluginActive pid then deactivatePlugin env fuel s pid
      else some (true, s)
    match dRes with
    | none => none
    | some (false, s₁) => some (false, s₁)
    | some (true, s₁) =>
      if s₁.m_pluginStates pid = PluginState.Initialized then
        let s₂ := s₁.emitEvent (Event.hookShutdown pid)
        if !env.shutdownHook pid then some (false, s₂)
        else some (unloadTail env s₂ pid)
      else some (unloadTail env s₁ pid)

/-- Scan loop of `PluginManager::scanForPlugins` over the base names
of the `*.json` files found in the metadata directory. -/
def scanGo (env : Env) : MS → List String → List String × MS
  | s, [] => ([], s)
  | s, pid :: rest =>
    let p := loadPluginMetadata env s pid
    let r := scanGo env p.2 rest
    (if p.1 then pid :: r.1 else r.1, r.2)

/-- `PluginManager::scanForPlugins`. -/
def scanForPlugins (env : Env) (s : MS) (files : List String) :
    List String × MS :=
  if !s.m_initialized then ([], s) else scanGo env s files

/-- The shared visit loop: both `sortPluginsByDependency`'s top loop
and the dependency loop inside `buildDependencyGraph` visit each
not-yet-visited id through `recur` (the depth-first visit at the
remaining fuel), threading the visited set and the output. -/
def bdgGo (recur : String → List String → List String →
      Option (List String × List String)) :
    List String → List String → List String →
      Option (List String × List String)
  | [], v, so => some (v, so)
  | dep :: rest, v, so =>
    if dep ∈ v then bdgGo recur rest v so
    else
      match recur dep v so with
      | none => none
      | some (v', so') => bdgGo recur rest v' so'

/-- `PluginManager::buildDependencyGraph`: mark `pid` visited, visit
its declared dependencies depth-first, then append `pid` (post-order). -/
def buildDependencyGraph (md : List (String × PluginMetadata)) :
    Nat → String → List String → List String →
      Option (List String × List String)
  | 0, _, _, _ => none
  | Nat.succ fuel, pid, v, so =>
    let v₁ := v ++ [pid]
    let deps := match mdLookup md pid with
      | some m => m.getPluginDependencies
      | none => []
    match bdgGo (buildDependencyGraph md fuel) deps v₁ so with
    | none => none
    | some (v₂, so₂) => some (v₂, so₂ ++ [pid])

/-- `PluginManager::sortPluginsByDependency`. -/
def sortPluginsByDependency (md : List (String × PluginMetadata))
    (fuel : Nat) (ids : List String) : Option (List String) :=
  (bdgGo (buildDependencyGraph md fuel) ids [] []).map Prod.snd

/-- Per-plugin step of `PluginManager::shutdown`: deactivate when
active, then unload, ignoring both results. -/
def shutdownGo (env : Env) (fuel : Nat) : MS → List String → Option MS
  | s, [] => some s
  | s, pid :: rest =>
    let dRes := if s.isPluginActive pid then deactivatePlugin env fuel s pid
      else some (true, s)
    match dRes with
    | none => none
    | some (_, s₁) =>
      match unloadPlugin env fuel s₁ pid with
      | none => none
      | some (_, s₂) => shutdownGo env fuel s₂ rest

/-- `PluginManager::shutdown`: process the registered plugin ids in
reverse dependency order, then clear the registry. -/
def shutdown (env : Env) (fuel : Nat) (s : MS) : Option MS :=
  if !s.m_initialized then some s
  else
    match sortPluginsByDependency s.m_pluginMetadata fuel s.m_plugins with
    | none => none
    | some sorted =>
      match shutdownGo env fuel s sorted.reverse with
      | none => none
      | some s₁ =>
        some { s₁ with
          m_pluginLoaders := [], m_plugins := [], m_pluginMetadata := [],
          m_pluginStates := fun _ => PluginState.NotLoaded,
          m_initialized := false }

/-- The message attached to the `pluginFailed` event when the
initialize hook fails or throws. -/
def initFailMsg : HookRes → String
  | HookRes.ok => ""
  | HookRes.fail => "Failed to initialize"
  | HookRes.exn m => "Exception during initialization: " ++ m

/-- The message attached to the `pluginFailed` event when the
activate hook fails or throws. -/
def actFailMsg : HookRes → String
  | HookRes.ok => ""
  | HookRes.fail => "Failed to activate"
  | HookRes.exn m => "Exception during activation: " ++ m

/-- A registry entry that went through `loadPluginMetadata`'s checks:
present, valid, and with a matching self-reported id. -/
def goodEntry (s : MS) (pid : String) : Prop :=
  ∃ m, mdLookup s.m_pluginMetadata pid = some m ∧
    m.m_isValid = true ∧ m.getPluginId = pid

/-- Everything a metadata-only step leaves untouched, plus lookup
preservation on the metadata registry. -/
structure MetaOnly (s s' : MS) : Prop where
  flagEq : s'.m_initialized = s.m_initialized
  plugEq : s'.m_plugins = s.m_plugins
  loadersEq : s'.m_pluginLoaders = s.m_pluginLoaders
  statesEq : s'.m_pluginStates = s.m_pluginStates
  handlersEq : s'.m_handlers = s.m_handlers
  traceEq : s'.trace = s.trace
  mdPres : ∀ k m, mdLookup s.m_pluginMetadata k = some m →
    mdLookup s'.m_pluginMetadata k = some m

/-- Well-formedness of a manager state: every plugin recorded as
`Active` is currently loaded.  Every reachable state satisfies this,
and each lemma below preserves it. -/
def WF (s : MS) : Prop :=
  ∀ q, s.m_pluginStates q = PluginState.Active → q ∈ s.m_plugins

/-- How a load/initialize step evolves the state: registries grow,
the trace extends by `Δ` which contains no activation events, and the
set of `Active` plugins is untouched. -/
structure QuietFacts (s s' : MS) (Δ : List Event) : Prop where
  flagEq : s'.m_initialized = s.m_initialized
  plugMono : ∀ q, q ∈ s.m_plugins → q ∈ s'.m_plugins
  mdPres : ∀ k m, mdLookup s.m_pluginMetadata k = some m →
    mdLookup s'.m_pluginMetadata k = some m
  traceApp : s'.trace = s.trace ++ Δ
  noActΔ : ∀ q, Event.hookActivate q ∉ Δ ∧ Event.pluginActivated q ∉ Δ
  activeIff : ∀ q, s'.m_pluginStates q = PluginState.Active ↔
    s.m_pluginStates q = PluginState.Active

/-- How an activation step evolves the state: the trace extends by
`Δ`; plugins that were active stay active; newly active plugins are
witnessed by their `pluginActivated` event; and every `hookActivate B`
event in `Δ` is preceded by the activation of each of B's registered
dependencies. -/
structure ActFacts (s s' : MS) (Δ : List Event) : Prop where
  flagEq : s'.m_initialized = s.m_initialized
  plugMono : ∀ q, q ∈ s.m_plugins → q ∈ s'.m_plugins
  mdPres : ∀ k m, mdLookup s.m_pluginMetadata k = some m →
    mdLookup s'.m_pluginMetadata k = some m
  traceApp : s'.trace = s.trace ++ Δ
  activePres : ∀ q, s.m_pluginStates q = PluginState.Active →
    s'.m_pluginStates q = PluginState.Active
  activeSrc : ∀ q, s'.m_pluginStates q = PluginState.Active →
    s.m_pluginStates q = PluginState.Active ∨ Event.pluginActivated q ∈ Δ
  hookGuard : ∀ B A mB, mdLookup s.m_pluginMetadata B = some mB →
    A ∈ mB.getPluginDependencies →
    ∀ l₁ l₂, Δ = l₁ ++ Event.hookActivate B :: l₂ →
    s.m_pluginStates A = PluginState.Active ∨ Event.pluginActivated A ∈ l₁

/-! ### Concrete scenarios used by the closed witness theorems -/

/-- Valid metadata for a plugin with no dependencies. -/
def mdA : PluginMetadata := PluginMetadata.ofJson
  [("id", JVal.jstr "A"), ("name", JVal.jstr "A"),
   ("version", JVal.jstr "1.0"), ("vendor", JVal.jstr "v")]

/-- Valid metadata for a plugin depending on `A`. -/
def mdB : PluginMetadata := PluginMetadata.ofJson
  [("id", JVal.jstr "B"), ("name", JVal.jstr "B"),
   ("version", JVal.jstr "1.0"), ("vendor", JVal.jstr "v"),
   ("dependencies", JVal.jarr [JAtom.astr "A"])]

/-- Valid metadata for a plugin depending on `B`. -/
def mdC : PluginMetadata := PluginMetadata.ofJson
  [("id", JVal.jstr "C"), ("name", JVal.jstr "C"),
   ("version", JVal.jstr "1.0"), ("vendor", JVal.jstr "v"),
   ("dependencies", JVal.jarr [JAtom.astr "B"])]

/-- Valid metadata requiring framework `99.0.0`. -/
def mdX : PluginMetadata := PluginMetadata.ofJson
  [("id", JVal.jstr "X"), ("name", JVal.jstr "X"),
   ("version", JVal.jstr "1.0"), ("vendor", JVal.jstr "v"),
   ("minFrameworkVersion", JVal.jstr "99.0.0")]

/-- Valid metadata for a standalone plugin `P`. -/
def mdP : PluginMetadata := PluginMetadata.ofJson
  [("id", JVal.jstr "P"), ("name", JVal.jstr "P"),
   ("version", JVal.jstr "1.0"), ("vendor", JVal.jstr "v")]

/-- Valid metadata for a plugin `L` that depends on itself. -/
def mdL : PluginMetadata := PluginMetadata.ofJson
  [("id", JVal.jstr "L"), ("name", JVal.jstr "L"),
   ("version", JVal.jstr "1.0"), ("vendor", JVal.jstr "v"),
   ("dependencies", JVal.jarr [JAtom.astr "L"])]

/-- A registry with a self-referential dependency cycle. -/
def cyclMd : List (String × PluginMetadata) := [("L", mdL)]

/-- An environment in which every hook succeeds, the loader works,
and no metadata files exist on disk. -/
def okEnv : Env :=
  { initHook := fun _ => HookRes.ok, activateHook := fun _ => HookRes.ok,
    deactivateHook := fun _ => HookRes.ok, shutdownHook := fun _ => true,
    releaseOk := fun _ => true, metaFile := fun _ => none,
    libExists := fun _ => true, loadOut := fun _ => LoadOut.okLoad }

/-- Chain scenario: `A`, `B`, `C` all loaded and active, with the
`C → B → A` dependency chain registered. -/
def chainS : MS :=
  { m_initialized := true, m_plugins := ["A", "B", "C"],
    m_pluginLoaders := ["A", "B", "C"],
    m_pluginStates := fun q =>
      if q = "A" ∨ q = "B" ∨ q = "C" then PluginState.Active
      else PluginState.NotLoaded,
    m_pluginMetadata := [("A", mdA), ("B", mdB), ("C", mdC)],
    m_handlers := [], trace := [] }

/-- `A` and `B` loaded (state `Loaded`), dependency `B → A`
registered; nothing active yet. -/
def wS : MS :=
  { m_initialized := true, m_plugins := ["A", "B"],
    m_pluginLoaders := ["A", "B"],
    m_pluginStates := fun q =>
      if q = "A" ∨ q = "B" then PluginState.Loaded else PluginState.NotLoaded,
    m_pluginMetadata := [("A", mdA), ("B", mdB)],
    m_handlers := [], trace := [] }

/-- `X` registered with an incompatible `minFrameworkVersion`, not
loaded. -/
def sX : MS :=
  { m_initialized := true, m_plugins := [], m_pluginLoaders := [],
    m_pluginStates := fun _ => PluginState.NotLoaded,
    m_pluginMetadata := [("X", mdX)], m_handlers := [], trace := [] }

/-- A single plugin `P`, loaded, in the given state, owning one bus
handler. -/
def sP (st : PluginState) : MS :=
  { m_initialized := true, m_plugins := ["P"], m_pluginLoaders := ["P"],
    m_pluginStates := fun q => if q = "P" then st else PluginState.NotLoaded,
    m_pluginMetadata := [("P", mdP)], m_handlers := ["P:msg"], trace := [] }

/-- Plugin `A` registered but not loaded. -/
def sA0 : MS :=
  { m_initialized := true, m_plugins := [], m_pluginLoaders := [],
    m_pluginStates := fun _ => PluginState.NotLoaded,
    m_pluginMetadata := [("A", mdA)], m_handlers := [], trace := [] }

/-- A metadata object whose required field `name` is present but not
of string type. -/
def oBadName : JObj :=
  [("id", JVal.jstr "x"), ("name", JVal.jnum 1),
   ("version", JVal.jstr "1.0"), ("vendor", JVal.jstr "v")]

/-- A metadata object missing the required `name` field. -/
def oMiss : JObj := [("id", JVal.jstr "y")]

/-- An initialized manager with an empty registry. -/
def badS : MS :=
  { m_initialized := true, m_plugins := [], m_pluginLoaders := [],
    m_pluginStates := fun _ => PluginState.NotLoaded,
    m_pluginMetadata := [], m_handlers := [], trace := [] }

/-- Filesystem containing only `x.json` with the non-string name. -/
def badEnv : Env :=
  { okEnv with metaFile := fun pid => if pid = "x" then some oBadName else none }

/-- Filesystem containing only `y.json` with the missing name. -/
def missEnv : Env :=
  { okEnv with metaFile := fun pid => if pid = "y" then some oMiss else none }

/-- Hooks that fail by returning false. -/
def failEnv : Env :=
  { okEnv with
    initHook := fun _ => HookRes.fail
    activateHook := fun _ => HookRes.fail
    deactivateHook := fun _ => HookRes.fail }

/-- All hooks succeed but the module handle cannot be released. -/
def stuckEnv : Env := { okEnv with releaseOk := fun _ => false }

/-- The dependency list `buildDependencyGraph` reads for an id:
the registered metadata's dependencies, or empty. -/
def depsOfMd (md : List (String × PluginMetadata)) (pid : String) :
    List String :=
  match mdLookup md pid with
  | some m => m.getPluginDependencies
  | none => []

/-- A sequence in which every id appears after all of its registered
dependencies. -/
def topoSorted (md : List (String × PluginMetadata))
    (out : List String) : Prop :=
  ∀ l₁ x l₂, out = l₁ ++ x :: l₂ → ∀ d ∈ depsOfMd md x, d ∈ l₁

/-- Number of ids of `U` not yet visited. -/
def countFresh (U v : List String) : Nat :=
  (U.filter (fun x => !decide (x ∈ v))).length

/-- Every id the depth-first walk can ever visit: the requested ids
plus every declared dependency in the registry. -/
def depUniverse (md : List (String × PluginMetadata))
    (ids : List String) : List String :=
  ids ++ (md.map (fun p => p.2.getPluginDependencies)).flatten

/-- A fuel amount sufficient for the sort to terminate on any
registry, cyclic or not. -/
def suffFuel (md : List (String × PluginMetadata))
    (ids : List String) : Nat :=
  (depUniverse md ids).length + 1

/-! ### Basic lemmas about the map and state primitives -/

theorem mdLookup_keyInsert (k : String) (v : PluginMetadata)
    (md : List (String × PluginMetadata)) (q : String) :
    mdLookup (keyInsert k v md) q = if q = k then some v else mdLookup md q := by
  induction md with
  | nil => simp [keyInsert, mdLookup]
  | cons hd tl ih =>
    obtain ⟨k', v'⟩ := hd
    by_cases h1 : k = k'
    · subst h1
      by_cases hq : q = k <;> simp [keyInsert, mdLookup, hq]
    · simp only [keyInsert, if_neg h1]
      by_cases h2 : k < k'
      · simp only [if_pos h2]
        by_cases hq : q = k
        · simp [mdLookup, hq]
        · simp [mdLookup, hq]
      · simp only [if_neg h2]
        by_cases hq' : q = k'
        · subst hq'
          have hq : ¬ q = k := fun h => h1 h.symm
          simp [mdLookup, hq]
        · simp [mdLookup, hq', ih]

theorem mem_ksInsert (k : String) (l : List String) (q : String) :
    q ∈ ksInsert k l ↔ q = k ∨ q ∈ l := by
  induction l with
  | nil => simp [ksInsert]
  | cons hd tl ih =>
    simp only [ksInsert]
    split
    · rename_i h1; subst h1; simp only [List.mem_cons]; tauto
    · split
      · simp only [List.mem_cons]
      · simp only [List.mem_cons, ih]; tauto

theorem setState_states (s : MS) (pid : String) (st : PluginState) (q : String) :
    (s.setState pid st).m_pluginStates q =
      if q = pid then st else s.m_pluginStates q := rfl

theorem mdContains_iff (s : MS) (pid : String) :
    s.mdContains pid = true ↔ ∃ m, mdLookup s.m_pluginMetadata pid = some m := by
  simp only [MS.mdContains, decide_eq_true_eq]
  cases h : mdLookup s.m_pluginMetadata pid <;> simp

/-- The metadata value `operator[]` hands back. -/
theorem metadataAt_fst (s : MS) (pid : String) :
    (s.metadataAt pid).1 =
      (mdLookup s.m_pluginMetadata pid).getD PluginMetadata.mkDefault := by
  unfold MS.metadataAt
  cases h : mdLookup s.m_pluginMetadata pid <;> simp [h]

theorem metadataAt_deps (s : MS) (pid : String) :
    (s.metadataAt pid).1.getPluginDependencies = depsOfState s pid := by
  rw [metadataAt_fst]
  unfold depsOfState
  cases h : mdLookup s.m_pluginMetadata pid
  · simp [PluginMetadata.mkDefault, PluginMetadata.getPluginDependencies,
      jValue, jvalToArr]
  · simp

theorem MetaOnly.mRefl (s : MS) : MetaOnly s s :=
  ⟨rfl, rfl, rfl, rfl, rfl, rfl, fun _ _ h => h⟩

theorem MetaOnly.mTrans {s₁ s₂ s₃ : MS} (a : MetaOnly s₁ s₂) (b : MetaOnly s₂ s₃) :
    MetaOnly s₁ s₃ :=
  ⟨b.flagEq.trans a.flagEq, b.plugEq.trans a.plugEq, b.loadersEq.trans a.loadersEq,
   b.statesEq.trans a.statesEq, b.handlersEq.trans a.handlersEq,
   b.traceEq.trans a.traceEq, fun k m h => b.mdPres k m (a.mdPres k m h)⟩

theorem metadataAt_metaOnly (s : MS) (pid : String) :
    MetaOnly s (s.metadataAt pid).2 := by
  unfold MS.metadataAt
  cases h : mdLookup s.m_pluginMetadata pid
  · refine ⟨rfl, rfl, rfl, rfl, rfl, rfl, ?_⟩
    intro k m hk
    simp only [mdLookup_keyInsert]
    rcases eq_or_ne k pid with hkp | hkp
    · subst hkp; rw [hk] at h; cases h
    · simp [hkp, hk]
  · exact MetaOnly.mRefl s

/-- `loadPluginMetadata` only ever touches the metadata registry. -/
theorem loadPluginMetadata_shape (env : Env) (s : MS) (pid : String) :
    (loadPluginMetadata env s pid).2.m_initialized = s.m_initialized ∧
    (loadPluginMetadata env s pid).2.m_plugins = s.m_plugins ∧
    (loadPluginMetadata env s pid).2.m_pluginLoaders = s.m_pluginLoaders ∧
    (loadPluginMetadata env s pid).2.m_pluginStates = s.m_pluginStates ∧
    (loadPluginMetadata env s pid).2.m_handlers = s.m_handlers ∧
    (loadPluginMetadata env s pid).2.trace = s.trace := by
  unfold loadPluginMetadata
  cases ho : env.metaFile pid
  · exact ⟨rfl, rfl, rfl, rfl, rfl, rfl⟩
  · dsimp only []
    split
    · exact ⟨rfl, rfl, rfl, rfl, rfl, rfl⟩
    · split
      · exact ⟨rfl, rfl, rfl, rfl, rfl, rfl⟩
      · exact ⟨rfl, rfl, rfl, rfl, rfl, rfl⟩

/-- `loadPluginMetadata` writes only the entry for its own id. -/
theorem loadPluginMetadata_lookup_ne (env : Env) (s : MS) (pid q : String)
    (h : q ≠ pid) :
    mdLookup (loadPluginMetadata env s pid).2.m_pluginMetadata q =
      mdLookup s.m_pluginMetadata q := by
  unfold loadPluginMetadata
  cases ho : env.metaFile pid
  · rfl
  · dsimp only []
    split
    · rfl
    · split
      · rfl
      · simp [mdLookup_keyInsert, h]

/-- Lookup preservation holds whenever the target id has no entry yet —
exactly the situation in which the manager calls `loadPluginMetadata`
from the load and dependency-check paths. -/
theorem loadPluginMetadata_metaOnly (env : Env) (s : MS) (pid : String)
    (hnone : mdLookup s.m_pluginMetadata pid = none) :
    MetaOnly s (loadPluginMetadata env s pid).2 := by
  obtain ⟨h1, h2, h3, h4, h5, h6⟩ := loadPluginMetadata_shape env s pid
  refine ⟨h1, h2, h3, h4, h5, h6, ?_⟩
  intro k m hk
  rcases eq_or_ne k pid with hkp | hkp
  · subst hkp; rw [hk] at hnone; cases hnone
  · rw [loadPluginMetadata_lookup_ne env s pid k hkp]; exact hk

/-- The guarded fetch `if contains then skip else loadPluginMetadata`
used by `loadPlugin` and `checkDepsGo` is a metadata-only step. -/
theorem guardedFetch_metaOnly (env : Env) (s : MS) (pid : String) :
    MetaOnly s (if s.mdContains pid then (true, s)
      else loadPluginMetadata env s pid).2 := by
  by_cases hc : s.mdContains pid = true
  · simp only [hc, if_true]; exact MetaOnly.mRefl s
  · have hnone : mdLookup s.m_pluginMetadata pid = none := by
      rcases h : mdLookup s.m_pluginMetadata pid with _ | m
      · rfl
      · exact absurd ((mdContains_iff s pid).2 ⟨m, h⟩) hc
    simp only [hc, if_false]
    exact loadPluginMetadata_metaOnly env s pid hnone

theorem checkDepsGo_metaOnly (env : Env) :
    ∀ (deps : List String) (s : MS), MetaOnly s (checkDepsGo env s deps).2 := by
  intro deps
  induction deps with
  | nil => intro s; exact MetaOnly.mRefl s
  | cons dep rest ih =>
    intro s
    rcases hp : (if s.mdContains dep then (true, s) else loadPluginMetadata env s dep)
      with ⟨b1, t1⟩
    have hfetch : MetaOnly s t1 := by
      have h := guardedFetch_metaOnly env s dep
      rw [hp] at h; exact h
    simp only [checkDepsGo, hp]
    split
    · exact hfetch
    · split
      · exact hfetch.mTrans (metadataAt_metaOnly t1 dep)
      · exact (hfetch.mTrans (metadataAt_metaOnly t1 dep)).mTrans (ih _)

theorem checkPluginDependencies_metaOnly (env : Env) (s : MS) (pid : String) :
    MetaOnly s (checkPluginDependencies env s pid).2 := by
  unfold checkPluginDependencies
  split
  · exact MetaOnly.mRefl s
  · exact (metadataAt_metaOnly s pid).mTrans (checkDepsGo_metaOnly env _ _)

theorem isPluginLoaded_iff (s : MS) (pid : String) :
    s.isPluginLoaded pid = true ↔ s.m_initialized = true ∧ pid ∈ s.m_plugins := by
  unfold MS.isPluginLoaded
  rcases hb : s.m_initialized <;> simp [hb]

theorem isPluginActive_iff (s : MS) (pid : String) :
    s.isPluginActive pid = true ↔
      s.m_initialized = true ∧ s.m_pluginStates pid = PluginState.Active := by
  unfold MS.isPluginActive
  rcases hb : s.m_initialized <;> simp [hb]

/-! ### Facts bundles for the lifecycle operations -/

theorem MetaOnly.toQuiet {s s' : MS} (h : MetaOnly s s') : QuietFacts s s' [] where
  flagEq := h.flagEq
  plugMono := fun q hq => h.plugEq ▸ hq
  mdPres := h.mdPres
  traceApp := by rw [h.traceEq, List.append_nil]
  noActΔ := fun q => by simp
  activeIff := fun q => by rw [h.statesEq]

theorem QuietFacts.qRefl (s : MS) : QuietFacts s s [] := (MetaOnly.mRefl s).toQuiet

theorem QuietFacts.qTrans {s₁ s₂ s₃ : MS} {Δ₁ Δ₂ : List Event}
    (a : QuietFacts s₁ s₂ Δ₁) (b : QuietFacts s₂ s₃ Δ₂) :
    QuietFacts s₁ s₃ (Δ₁ ++ Δ₂) where
  flagEq := b.flagEq.trans a.flagEq
  plugMono := fun q hq => b.plugMono q (a.plugMono q hq)
  mdPres := fun k m h => b.mdPres k m (a.mdPres k m h)
  traceApp := by rw [b.traceApp, a.traceApp, List.append_assoc]
  noActΔ := fun q => by
    have ha := a.noActΔ q
    have hb := b.noActΔ q
    simp only [List.mem_append]
    exact ⟨fun h => h.elim ha.1 hb.1, fun h => h.elim ha.2 hb.2⟩
  activeIff := fun q => (b.activeIff q).trans (a.activeIff q)

theorem QuietFacts.wfPres {s s' : MS} {Δ : List Event}
    (h : QuietFacts s s' Δ) (hwf : WF s) : WF s' := fun q hq =>
  h.plugMono q (hwf q ((h.activeIff q).1 hq))

/-- Emitting a non-activation event is a quiet step. -/
theorem quiet_emit (s : MS) (e : Event)
    (he : ∀ q, e ≠ Event.hookActivate q ∧ e ≠ Event.pluginActivated q) :
    QuietFacts s (s.emitEvent e) [e] where
  flagEq := rfl
  plugMono := fun _ hq => hq
  mdPres := fun _ _ h => h
  traceApp := rfl
  noActΔ := fun q => by
    have := he q
    constructor
    · intro hmem
      rcases List.mem_singleton.1 hmem with h
      exact this.1 h.symm
    · intro hmem
      rcases List.mem_singleton.1 hmem with h
      exact this.2 h.symm
  activeIff := fun _ => Iff.rfl

/-- The common failure tail `setState Failed; emit pluginFailed` is a
quiet step whenever the target plugin is not currently active. -/
theorem quiet_failStep (s : MS) (pid msg : String)
    (hna : s.m_pluginStates pid ≠ PluginState.Active) :
    QuietFacts s ((s.setState pid PluginState.Failed).emitEvent
      (Event.pluginFailed pid msg)) [Event.pluginFailed pid msg] where
  flagEq := rfl
  plugMono := fun _ hq => hq
  mdPres := fun _ _ h => h
  traceApp := rfl
  noActΔ := fun q => by simp
  activeIff := fun q => by
    simp only [MS.emitEvent, MS.setState]
    rcases eq_or_ne q pid with h | h
    · subst h
      simp only [if_pos rfl]
      constructor
      · intro hq; cases hq
      · intro hq; exact absurd hq hna
    · simp [h]

/-- Evolution facts for `loadPlugin`: it is a quiet step, and a
successful call leaves the plugin loaded with the manager still
initialized. -/
theorem loadPlugin_facts (env : Env) (s : MS) (pid : String) (hwf : WF s) :
    (∃ Δ, QuietFacts s (loadPlugin env s pid).2 Δ) ∧
    ((loadPlugin env s pid).1 = true →
      pid ∈ (loadPlugin env s pid).2.m_plugins ∧
      (loadPlugin env s pid).2.m_initialized = true) := by
  unfold loadPlugin
  rcases hinit : s.m_initialized with _ | _
  · simp only [hinit, Bool.not_false, if_true]
    exact ⟨⟨[], QuietFacts.qRefl s⟩, by simp⟩
  · simp only [hinit, Bool.not_true, Bool.false_eq_true, if_false]
    by_cases hld : s.isPluginLoaded pid = true
    · simp only [hld, if_true]
      refine ⟨⟨[], QuietFacts.qRefl s⟩, fun _ => ?_⟩
      exact ⟨((isPluginLoaded_iff s pid).1 hld).2, hinit⟩
    · simp only [hld, if_false]
      have hnp : pid ∉ s.m_plugins := fun hmem =>
        hld ((isPluginLoaded_iff s pid).2 ⟨hinit, hmem⟩)
      have hnact : s.m_pluginStates pid ≠ PluginState.Active := fun ha =>
        hnp (hwf pid ha)
      rcases hp : (if s.mdContains pid then (true, s)
        else loadPluginMetadata env s pid) with ⟨b1, t1⟩
      have hq1 : MetaOnly s t1 := by
        have h := guardedFetch_metaOnly env s pid
        rw [hp] at h; exact h
      simp only [hp]
      rcases b1 with _ | _
      · simp only [Bool.not_false, if_true]
        exact ⟨⟨[], hq1.toQuiet⟩, by simp⟩
      · simp only [Bool.not_true, Bool.false_eq_true, if_false]
        rcases hq : t1.metadataAt pid with ⟨md, s₂⟩
        have hq2 : MetaOnly s s₂ := by
          have h := metadataAt_metaOnly t1 pid
          rw [hq] at h; exact hq1.mTrans h
        have hnact₂ : s₂.m_pluginStates pid ≠ PluginState.Active := by
          rw [hq2.statesEq]; exact hnact
        simp only [hq]
        by_cases hc : md.isCompatibleWithFramework frameworkVersion = true
        · simp only [hc, Bool.not_true, Bool.false_eq_true, if_false]
          rcases hr : checkPluginDependencies env s₂ pid with ⟨bd, s₃⟩
          have hq3 : MetaOnly s s₃ := by
            have h := checkPluginDependencies_metaOnly env s₂ pid
            rw [hr] at h; exact hq2.mTrans h
          have hnact₃ : s₃.m_pluginStates pid ≠ PluginState.Active := by
            rw [hq3.statesEq]; exact hnact
          simp only [hr]
          rcases bd with _ | _
          · simp only [Bool.not_false, if_true]
            refine ⟨⟨[Event.pluginFailed pid "Unsatisfied dependencies"],
              ?_⟩, by simp⟩
            exact (hq3.toQuiet.qTrans (quiet_failStep s₃ pid _ hnact₃))
          · simp only [Bool.not_true, Bool.false_eq_true, if_false]
            by_cases hl : env.libExists md.getPluginId = true
            · simp only [hl, Bool.not_true, Bool.false_eq_true, if_false]
              have hq4 : QuietFacts s (s₃.emitEvent
                  (Event.loaderLoad md.getPluginId)) [Event.loaderLoad md.getPluginId] := by
                have := quiet_emit s₃ (Event.loaderLoad md.getPluginId)
                  (fun q => ⟨by simp, by simp⟩)
                simpa using hq3.toQuiet.qTrans this
              have hnact₄ : (s₃.emitEvent (Event.loaderLoad md.getPluginId)).m_pluginStates
                  pid ≠ PluginState.Active := hnact₃
              rcases hout : env.loadOut md.getPluginId with e | e | _ | _
              · simp only [hout]
                refine ⟨⟨_, hq4.qTrans (quiet_failStep _ pid _ hnact₄)⟩, by simp⟩
              · simp only [hout]
                refine ⟨⟨_, hq4.qTrans (quiet_failStep _ pid _ hnact₄)⟩, by simp⟩
              · simp only [hout]
                refine ⟨⟨_, hq4.qTrans (quiet_failStep _ pid _ hnact₄)⟩, by simp⟩
              · simp only [hout]
                refine ⟨⟨[Event.loaderLoad md.getPluginId] ++ [Event.pluginLoaded pid],
                  hq4.qTrans (?_ : QuietFacts _ _ [Event.pluginLoaded pid])⟩, fun _ => ?_⟩
                · refine ⟨rfl, ?_, fun _ _ h => h, rfl, fun q => by simp, ?_⟩
                  · intro q hq'
                    simp only [MS.emitEvent, MS.setState]
                    exact (mem_ksInsert pid _ q).2 (Or.inr hq')
                  · intro q
                    simp only [MS.emitEvent, MS.setState]
                    rcases eq_or_ne q pid with h | h
                    · subst h
                      simp only [if_pos rfl]
                      constructor
                      · intro hx; cases hx
                      · intro hx; exact absurd hx hnact₄
                    · simp [h]
                · constructor
                  · simp only [MS.emitEvent, MS.setState]
                    exact (mem_ksInsert pid _ pid).2 (Or.inl rfl)
                  · simp only [MS.emitEvent, MS.setState]
                    exact hq3.flagEq.trans hinit
            · simp only [hl, Bool.not_false, if_true]
              refine ⟨⟨[Event.pluginFailed pid "Plugin library not found"], ?_⟩, by simp⟩
              exact hq3.toQuiet.qTrans (quiet_failStep s₃ pid _ hnact₃)
        · simp only [hc, Bool.not_false, if_true]
          refine ⟨⟨[Event.pluginFailed pid
            ("Incompatible with framework version " ++ frameworkVersion)], ?_⟩, by simp⟩
          exact hq2.toQuiet.qTrans (quiet_failStep s₂ pid _ hnact₂)

/-- Facts for the dependency loop of `initPlugin`, given facts for the
recursive call. -/
theorem initDepsGo_facts (env : Env) (fuel : Nat)
    (IH : ∀ s pid b s', WF s → initPlugin env fuel s pid = some (b, s') →
      ∃ Δ, QuietFacts s s' Δ) :
    ∀ (deps : List String) (s : MS) (pid : String) (b : Bool) (s' : MS),
      WF s → s.m_pluginStates pid ≠ PluginState.Active →
      initDepsGo env (initPlugin env fuel) s pid deps = some (b, s') →
      ∃ Δ, QuietFacts s s' Δ := by
  intro deps
  induction deps with
  | nil =>
    intro s pid b s' _ _ h
    simp only [initDepsGo, Option.some.injEq, Prod.mk.injEq] at h
    rw [← h.2]
    exact ⟨[], QuietFacts.qRefl s⟩
  | cons dep rest ih =>
    intro s pid b s' hwf hpna h
    rcases hp : (if s.isPluginLoaded dep then (true, s) else loadPlugin env s dep)
      with ⟨b1, t1⟩
    have hq1 : ∃ Δ, QuietFacts s t1 Δ := by
      by_cases hld : s.isPluginLoaded dep = true
      · rw [if_pos hld] at hp
        cases hp
        exact ⟨[], QuietFacts.qRefl s⟩
      · rw [if_neg hld] at hp
        obtain ⟨Δ, hΔ⟩ := (loadPlugin_facts env s dep hwf).1
        rw [hp] at hΔ
        exact ⟨Δ, hΔ⟩
    obtain ⟨Δ₁, hΔ₁⟩ := hq1
    have hwf₁ : WF t1 := hΔ₁.wfPres hwf
    have hpna₁ : t1.m_pluginStates pid ≠ PluginState.Active := fun hx =>
      hpna ((hΔ₁.activeIff pid).1 hx)
    simp only [initDepsGo, hp] at h
    rcases b1 with _ | _
    · simp only [Bool.not_false, if_true, Option.some.injEq, Prod.mk.injEq] at h
      rw [← h.2]
      exact ⟨_, hΔ₁.qTrans (quiet_failStep t1 pid _ hpna₁)⟩
    · simp only [Bool.not_true, Bool.false_eq_true, if_false] at h
      by_cases hst : t1.m_pluginStates dep ≠ PluginState.Initialized ∧
          t1.m_pluginStates dep ≠ PluginState.Active
      · rw [if_pos hst] at h
        rcases hrec : initPlugin env fuel t1 dep with _ | p
        · rw [hrec] at h; cases h
        · obtain ⟨b2, s₂⟩ := p
          rw [hrec] at h
          obtain ⟨Δ₂, hΔ₂⟩ := IH t1 dep b2 s₂ hwf₁ hrec
          have hwf₂ : WF s₂ := hΔ₂.wfPres hwf₁
          have hpna₂ : s₂.m_pluginStates pid ≠ PluginState.Active := fun hx =>
            hpna₁ ((hΔ₂.activeIff pid).1 hx)
          rcases b2 with _ | _
          · simp only [Option.some.injEq, Prod.mk.injEq] at h
            rw [← h.2]
            exact ⟨_, (hΔ₁.qTrans hΔ₂).qTrans (quiet_failStep s₂ pid _ hpna₂)⟩
          · obtain ⟨Δ₃, hΔ₃⟩ := ih s₂ pid b s' hwf₂ hpna₂ h
            exact ⟨_, (hΔ₁.qTrans hΔ₂).qTrans hΔ₃⟩
      · rw [if_neg hst] at h
        obtain ⟨Δ₃, hΔ₃⟩ := ih t1 pid b s' hwf₁ hpna₁ h
        exact ⟨_, hΔ₁.qTrans hΔ₃⟩

/-- Evolution facts for `initPlugin`: it is a quiet step, and success
leaves the plugin loaded, initialized (or already active), with the
manager initialized. -/
theorem initPlugin_facts (env : Env) :
    ∀ (fuel : Nat) (s : MS) (pid : String) (b : Bool) (s' : MS), WF s →
      initPlugin env fuel s pid = some (b, s') →
      (∃ Δ, QuietFacts s s' Δ) ∧
      (b = true → (s'.m_pluginStates pid = PluginState.Initialized ∨
          s'.m_pluginStates pid = PluginState.Active) ∧
        pid ∈ s'.m_plugins ∧ s'.m_initialized = true) := by
  intro fuel
  induction fuel with
  | zero => intro s pid b s' _ h; cases h
  | succ fuel ihf =>
    have IH : ∀ s pid b s', WF s → initPlugin env fuel s pid = some (b, s') →
        ∃ Δ, QuietFacts s s' Δ := fun s pid b s' hwf h =>
      (ihf s pid b s' hwf h).1
    intro s pid b s' hwf h
    rcases hinit : s.m_initialized with _ | _
    · simp only [initPlugin, hinit, Bool.not_false, if_true,
        Option.some.injEq, Prod.mk.injEq] at h
      rw [← h.2]
      exact ⟨⟨[], QuietFacts.qRefl s⟩, fun hb => absurd (h.1.trans hb) (by simp)⟩
    · simp only [initPlugin, hinit, Bool.not_true, Bool.false_eq_true, if_false] at h
      by_cases hld : s.isPluginLoaded pid = true
      · simp only [hld, Bool.not_true, Bool.false_eq_true, if_false] at h
        by_cases hia : s.m_pluginStates pid = PluginState.Initialized ∨
            s.m_pluginStates pid = PluginState.Active
        · rw [if_pos hia] at h
          simp only [Option.some.injEq, Prod.mk.injEq] at h
          rw [← h.2]
          refine ⟨⟨[], QuietFacts.qRefl s⟩, fun _ => ⟨hia, ?_, hinit⟩⟩
          exact ((isPluginLoaded_iff s pid).1 hld).2
        · rw [if_neg hia] at h
          by_cases hfl : s.m_pluginStates pid = PluginState.Failed
          · rw [if_pos hfl] at h
            simp only [Option.some.injEq, Prod.mk.injEq] at h
            rw [← h.2]
            exact ⟨⟨[], QuietFacts.qRefl s⟩,
              fun hb => absurd (h.1.trans hb) (by simp)⟩
          · rw [if_neg hfl] at h
            have hpna : s.m_pluginStates pid ≠ PluginState.Active := fun hx =>
              hia (Or.inr hx)
            rcases hm : s.metadataAt pid with ⟨md, s₁⟩
            have hq1 : MetaOnly s s₁ := by
              have hmo := metadataAt_metaOnly s pid
              rw [hm] at hmo; exact hmo
            have hwf₁ : WF s₁ := hq1.toQuiet.wfPres hwf
            have hpna₁ : s₁.m_pluginStates pid ≠ PluginState.Active := by
              rw [hq1.statesEq]; exact hpna
            rw [hm] at h
            rcases hdl : initDepsGo env (initPlugin env fuel) s₁ pid
                md.getPluginDependencies with _ | p
            · rw [hdl] at h; cases h
            · obtain ⟨b2, s₂⟩ := p
              rw [hdl] at h
              obtain ⟨Δ₂, hΔ₂⟩ := initDepsGo_facts env fuel IH
                md.getPluginDependencies s₁ pid b2 s₂ hwf₁ hpna₁ hdl
              have hquiet : QuietFacts s s₂ ([] ++ Δ₂) := hq1.toQuiet.qTrans hΔ₂
              have hpna₂ : s₂.m_pluginStates pid ≠ PluginState.Active := fun hx =>
                hpna ((hquiet.activeIff pid).1 hx)
              rcases b2 with _ | _
              · simp only [Option.some.injEq, Prod.mk.injEq] at h
                rw [← h.2]
                exact ⟨⟨_, hquiet⟩, fun hb => absurd (h.1.trans hb) (by simp)⟩
              · have hq3 : QuietFacts s (s₂.emitEvent (Event.hookInitialize pid))
                    (([] ++ Δ₂) ++ [Event.hookInitialize pid]) :=
                  hquiet.qTrans (quiet_emit s₂ _ (fun q => ⟨by simp, by simp⟩))
                have hpna₃ : (s₂.emitEvent (Event.hookInitialize pid)).m_pluginStates
                    pid ≠ PluginState.Active := hpna₂
                rcases hhook : env.initHook pid with _ | _ | m
                · rw [hhook] at h
                  simp only [Option.some.injEq, Prod.mk.injEq] at h
                  rw [← h.2]
                  refine ⟨⟨_, hq3.qTrans (?_ : QuietFacts _ _
                    [Event.pluginInitialized pid])⟩, fun _ => ⟨?_, ?_, ?_⟩⟩
                  · refine ⟨rfl, fun q hq' => hq', fun k mm hk => hk, rfl,
                      fun q => by simp, fun q => ?_⟩
                    simp only [MS.emitEvent, MS.setState]
                    rcases eq_or_ne q pid with hqe | hqe
                    · subst hqe
                      simp only [if_pos rfl]
                      exact ⟨(fun hx => nomatch hx), fun hx => absurd hx hpna₃⟩
                    · simp [hqe]
                  · left
                    simp [MS.emitEvent, MS.setState]
                  · have hmem : pid ∈ s.m_plugins := ((isPluginLoaded_iff s pid).1 hld).2
                    simp only [MS.emitEvent, MS.setState]
                    exact hquiet.plugMono pid hmem
                  · simp only [MS.emitEvent, MS.setState]
                    exact hquiet.flagEq.trans hinit
                · rw [hhook] at h
                  simp only [Option.some.injEq, Prod.mk.injEq] at h
                  rw [← h.2]
                  exact ⟨⟨_, hq3.qTrans (quiet_failStep _ pid _ hpna₃)⟩,
                    fun hb => absurd (h.1.trans hb) (by simp)⟩
                · rw [hhook] at h
                  simp only [Option.some.injEq, Prod.mk.injEq] at h
                  rw [← h.2]
                  exact ⟨⟨_, hq3.qTrans (quiet_failStep _ pid _ hpna₃)⟩,
                    fun hb => absurd (h.1.trans hb) (by simp)⟩
      · have hld2 : s.isPluginLoaded pid = false := by
          revert hld; cases s.isPluginLoaded pid <;> simp
        simp only [hld2, Bool.not_false, if_true, Option.some.injEq,
          Prod.mk.injEq] at h
        rw [← h.2]
        exact ⟨⟨[], QuietFacts.qRefl s⟩,
          fun hb => absurd (h.1.trans hb) (by simp)⟩

/-- Lookup after `operator[]` always finds the returned value. -/
theorem metadataAt_lookup_self (s : MS) (pid : String) :
    mdLookup (s.metadataAt pid).2.m_pluginMetadata pid =
      some (s.metadataAt pid).1 := by
  unfold MS.metadataAt
  cases h : mdLookup s.m_pluginMetadata pid
  · simp [mdLookup_keyInsert, h]
  · simp [h]

/-- Splitting a concatenation at a distinguished element: the element
lies in the left or in the right part. -/
theorem append_split_cons {α : Type} {Δ₁ Δ₂ l₁ l₂ : List α} {e : α} :
    Δ₁ ++ Δ₂ = l₁ ++ e :: l₂ →
    (∃ t, Δ₁ = l₁ ++ e :: t ∧ l₂ = t ++ Δ₂) ∨
    (∃ p, l₁ = Δ₁ ++ p ∧ Δ₂ = p ++ e :: l₂) := by
  induction Δ₁ generalizing l₁ with
  | nil =>
    intro h
    right
    exact ⟨l₁, by simp, by simpa using h⟩
  | cons x Δ₁' ih =>
    intro h
    cases l₁ with
    | nil =>
      left
      simp only [List.cons_append, List.nil_append] at h
      injection h with h1 h2
      exact ⟨Δ₁', by rw [h1]; rfl, h2.symm⟩
    | cons y l₁' =>
      simp only [List.cons_append] at h
      injection h with h1 h2
      rcases ih h2 with ⟨t, ht1, ht2⟩ | ⟨p, hp1, hp2⟩
      · left
        exact ⟨t, by rw [h1, ht1]; rfl, ht2⟩
      · right
        exact ⟨p, by rw [h1, hp1]; rfl, hp2⟩

theorem QuietFacts.toAct {s s' : MS} {Δ : List Event}
    (h : QuietFacts s s' Δ) : ActFacts s s' Δ where
  flagEq := h.flagEq
  plugMono := h.plugMono
  mdPres := h.mdPres
  traceApp := h.traceApp
  activePres := fun q hq => (h.activeIff q).2 hq
  activeSrc := fun q hq => Or.inl ((h.activeIff q).1 hq)
  hookGuard := fun B _ _ _ _ l₁ l₂ hsplit => by
    exact absurd (hsplit ▸ (List.mem_append_right l₁ (List.mem_cons_self _ _)))
      ((h.noActΔ B).1)

theorem ActFacts.aRefl (s : MS) : ActFacts s s [] := (QuietFacts.qRefl s).toAct

theorem ActFacts.aTrans {s₁ s₂ s₃ : MS} {Δ₁ Δ₂ : List Event}
    (a : ActFacts s₁ s₂ Δ₁) (b : ActFacts s₂ s₃ Δ₂) :
    ActFacts s₁ s₃ (Δ₁ ++ Δ₂) where
  flagEq := b.flagEq.trans a.flagEq
  plugMono := fun q hq => b.plugMono q (a.plugMono q hq)
  mdPres := fun k m h => b.mdPres k m (a.mdPres k m h)
  traceApp := by rw [b.traceApp, a.traceApp, List.append_assoc]
  activePres := fun q hq => b.activePres q (a.activePres q hq)
  activeSrc := fun q hq => by
    rcases b.activeSrc q hq with h2 | h2
    · rcases a.activeSrc q h2 with h1 | h1
      · exact Or.inl h1
      · exact Or.inr (List.mem_append_left _ h1)
    · exact Or.inr (List.mem_append_right _ h2)
  hookGuard := fun B A mB hmd hdep l₁ l₂ hsplit => by
    rcases append_split_cons hsplit with ⟨t, ht1, _⟩ | ⟨p, hp1, hp2⟩
    · exact a.hookGuard B A mB hmd hdep l₁ t ht1
    · rcases b.hookGuard B A mB (a.mdPres B mB hmd) hdep p l₂ hp2 with h2 | h2
      · rcases a.activeSrc A h2 with h1 | h1
        · exact Or.inl h1
        · exact Or.inr (hp1 ▸ List.mem_append_left p h1)
      · exact Or.inr (hp1 ▸ List.mem_append_right Δ₁ h2)

/-- Facts for the dependency loop of `activatePlugin`, given facts for
the recursive call at the same fuel. -/
theorem actDepsGo_facts (env : Env) (fuel : Nat)
    (IH : ∀ s pid b s', WF s → activatePlugin env fuel s pid = some (b, s') →
      (∃ Δ, ActFacts s s' Δ) ∧ WF s' ∧
      (b = true → s'.m_pluginStates pid = PluginState.Active)) :
    ∀ (deps : List String) (s : MS) (b : Bool) (s' : MS), WF s →
      actDepsGo (activatePlugin env fuel) s deps = some (b, s') →
      (∃ Δ, ActFacts s s' Δ) ∧ WF s' ∧
      (b = true → ∀ d ∈ deps, s'.m_pluginStates d = PluginState.Active) := by
  intro deps
  induction deps with
  | nil =>
    intro s b s' hwf h
    simp only [actDepsGo, Option.some.injEq, Prod.mk.injEq] at h
    rw [← h.2]
    exact ⟨⟨[], ActFacts.aRefl s⟩, hwf, fun _ d hd => absurd hd (List.not_mem_nil d)⟩
  | cons dep rest ih =>
    intro s b s' hwf h
    simp only [actDepsGo] at h
    by_cases hact : s.m_pluginStates dep ≠ PluginState.Active
    · rw [if_pos hact] at h
      rcases hrec : activatePlugin env fuel s dep with _ | p
      · rw [hrec] at h; cases h
      · obtain ⟨b1, s₁⟩ := p
        rw [hrec] at h
        obtain ⟨⟨Δ₁, hΔ₁⟩, hwf₁, hself⟩ := IH s dep b1 s₁ hwf hrec
        rcases b1 with _ | _
        · simp only [Option.some.injEq, Prod.mk.injEq] at h
          rw [← h.2]
          exact ⟨⟨Δ₁, hΔ₁⟩, hwf₁, fun hb => absurd (h.1.trans hb) (by simp)⟩
        · obtain ⟨⟨Δ₂, hΔ₂⟩, hwf₂, hdeps⟩ := ih s₁ b s' hwf₁ h
          refine ⟨⟨Δ₁ ++ Δ₂, hΔ₁.aTrans hΔ₂⟩, hwf₂, fun hb d hd => ?_⟩
          rcases List.mem_cons.1 hd with hdd | hdd
          · subst hdd
            exact hΔ₂.activePres d (hself rfl)
          · exact hdeps hb d hdd
    · rw [if_neg hact] at h
      obtain ⟨⟨Δ₂, hΔ₂⟩, hwf₂, hdeps⟩ := ih s b s' hwf h
      refine ⟨⟨Δ₂, hΔ₂⟩, hwf₂, fun hb d hd => ?_⟩
      rcases List.mem_cons.1 hd with hdd | hdd
      · subst hdd
        exact hΔ₂.activePres d (not_not.1 hact)
      · exact hdeps hb d hdd

/-- The hook-precedence guard for the tail of `activatePlugin`: once
every registered dependency of `pid` is active in `s₃` and the call
then emits `hookActivate pid` followed by non-hook events, every
split of the resulting trace extension at a `hookActivate` event is
covered. -/
theorem act_tail_guard {s s₃ : MS} {ΔF : List Event} {pid : String}
    {md : PluginMetadata} (F : ActFacts s s₃ ΔF)
    (hmd₃ : mdLookup s₃.m_pluginMetadata pid = some md)
    (hdeps₃ : ∀ d ∈ md.getPluginDependencies,
      s₃.m_pluginStates d = PluginState.Active)
    (tail : List Event) (htail : ∀ q, Event.hookActivate q ∉ tail) :
    ∀ B A mB, mdLookup s.m_pluginMetadata B = some mB →
      A ∈ mB.getPluginDependencies →
      ∀ l₁ l₂, ΔF ++ (Event.hookActivate pid :: tail) =
        l₁ ++ Event.hookActivate B :: l₂ →
      s.m_pluginStates A = PluginState.Active ∨
        Event.pluginActivated A ∈ l₁ := by
  intro B A mB hmB hdep l₁ l₂ hsplit
  rcases append_split_cons hsplit with ⟨t, ht1, _⟩ | ⟨p, hp1, hp2⟩
  · exact F.hookGuard B A mB hmB hdep l₁ t ht1
  · rcases p with _ | ⟨x, p'⟩
    · simp only [List.nil_append] at hp2
      injection hp2 with h1 h2
      injection h1 with hBpid
      subst hBpid
      have hmdeq : mB = md := by
        have hpres := F.mdPres pid mB hmB
        rw [hpres] at hmd₃
        exact (Option.some.injEq .. ▸ hmd₃).symm ▸ rfl
      have hA3 := hdeps₃ A (hmdeq ▸ hdep)
      rcases F.activeSrc A hA3 with hcase | hcase
      · exact Or.inl hcase
      · exact Or.inr (hp1 ▸ List.mem_append_left _ hcase)
    · injection hp2 with h1 h2
      exact absurd (h2 ▸ List.mem_append_right p' (List.mem_cons_self _ _))
        (htail B)

/-- Evolution facts for `activatePlugin`: the trace/state bundle, WF
preservation, and for a successful call: the target ends `Active`,
stays loaded, and (when it was not already active) all its registered
dependencies end `Active`. -/
theorem activatePlugin_facts (env : Env) :
    ∀ (fuel : Nat) (s : MS) (pid : String) (b : Bool) (s' : MS), WF s →
      activatePlugin env fuel s pid = some (b, s') →
      (∃ Δ, ActFacts s s' Δ) ∧ WF s' ∧
      (b = true → s'.m_pluginStates pid = PluginState.Active) ∧
      (b = true → pid ∈ s'.m_plugins ∧ s'.m_initialized = true) ∧
      (b = true → s.m_pluginStates pid ≠ PluginState.Active →
        ∀ mP, mdLookup s.m_pluginMetadata pid = some mP →
        ∀ d ∈ mP.getPluginDependencies,
          s'.m_pluginStates d = PluginState.Active) := by
  intro fuel
  induction fuel with
  | zero => intro s pid b s' _ h; cases h
  | succ fuel ihf =>
    have IH : ∀ s pid b s', WF s → activatePlugin env fuel s pid = some (b, s') →
        (∃ Δ, ActFacts s s' Δ) ∧ WF s' ∧
        (b = true → s'.m_pluginStates pid = PluginState.Active) :=
      fun s pid b s' hwf h =>
        ⟨(ihf s pid b s' hwf h).1, (ihf s pid b s' hwf h).2.1,
          (ihf s pid b s' hwf h).2.2.1⟩
    intro s pid b s' hwf h
    rcases hinit : s.m_initialized with _ | _
    · simp only [activatePlugin, hinit, Bool.not_false, if_true,
        Option.some.injEq, Prod.mk.injEq] at h
      rw [← h.2]
      exact ⟨⟨[], ActFacts.aRefl s⟩, hwf,
        fun hb => absurd (h.1.trans hb) (by simp),
        fun hb => absurd (h.1.trans hb) (by simp),
        fun hb => absurd (h.1.trans hb) (by simp)⟩
    · simp only [activatePlugin, hinit, Bool.not_true, Bool.false_eq_true,
        if_false] at h
      by_cases hld : s.isPluginLoaded pid = true
      case neg =>
        have hld2 : s.isPluginLoaded pid = false := by
          revert hld; cases s.isPluginLoaded pid <;> simp
        simp only [hld2, Bool.not_false, if_true, Option.some.injEq,
          Prod.mk.injEq] at h
        rw [← h.2]
        exact ⟨⟨[], ActFacts.aRefl s⟩, hwf,
          fun hb => absurd (h.1.trans hb) (by simp),
          fun hb => absurd (h.1.trans hb) (by simp),
          fun hb => absurd (h.1.trans hb) (by simp)⟩
      case pos =>
        simp only [hld, Bool.not_true, Bool.false_eq_true, if_false] at h
        by_cases hactive : s.m_pluginStates pid = PluginState.Active
        · rw [if_pos hactive] at h
          simp only [Option.some.injEq, Prod.mk.injEq] at h
          rw [← h.2]
          exact ⟨⟨[], ActFacts.aRefl s⟩, hwf, fun _ => hactive,
            fun _ => ⟨((isPluginLoaded_iff s pid).1 hld).2, hinit⟩,
            fun _ hna => absurd hactive hna⟩
        · rw [if_neg hactive] at h
          by_cases hfail : s.m_pluginStates pid = PluginState.Failed
          · rw [if_pos hfail] at h
            simp only [Option.some.injEq, Prod.mk.injEq] at h
            rw [← h.2]
            exact ⟨⟨[], ActFacts.aRefl s⟩, hwf,
              fun hb => absurd (h.1.trans hb) (by simp),
              fun hb => absurd (h.1.trans hb) (by simp),
              fun hb => absurd (h.1.trans hb) (by simp)⟩
          · rw [if_neg hfail] at h
            rcases hires : (if s.m_pluginStates pid ≠ PluginState.Initialized then
                initPlugin env (Nat.succ fuel) s pid else some (true, s))
              with _ | ⟨b1, s₁⟩
            · rw [hires] at h; cases h
            · rw [hires] at h
              have hq₁ : ∃ Δ, QuietFacts s s₁ Δ := by
                by_cases hni : s.m_pluginStates pid ≠ PluginState.Initialized
                · rw [if_pos hni] at hires
                  exact (initPlugin_facts env (Nat.succ fuel) s pid b1 s₁ hwf hires).1
                · rw [if_neg hni] at hires
                  simp only [Option.some.injEq, Prod.mk.injEq] at hires
                  rw [← hires.2]
                  exact ⟨[], QuietFacts.qRefl s⟩
              obtain ⟨Δ₀, hΔ₀⟩ := hq₁
              have hwf₁ : WF s₁ := hΔ₀.wfPres hwf
              rcases b1 with _ | _
              · simp only [Option.some.injEq, Prod.mk.injEq] at h
                rw [← h.2]
                exact ⟨⟨Δ₀, hΔ₀.toAct⟩, hwf₁,
                  fun hb => absurd (h.1.trans hb) (by simp),
                  fun hb => absurd (h.1.trans hb) (by simp),
                  fun hb => absurd (h.1.trans hb) (by simp)⟩
              · dsimp only at h
                rcases hq : s₁.metadataAt pid with ⟨md, s₂⟩
                have hmo : MetaOnly s₁ s₂ := by
                  have hmo' := metadataAt_metaOnly s₁ pid
                  rw [hq] at hmo'; exact hmo'
                have hmd₂ : mdLookup s₂.m_pluginMetadata pid = some md := by
                  have hself := metadataAt_lookup_self s₁ pid
                  rw [hq] at hself; exact hself
                have hwf₂ : WF s₂ := hmo.toQuiet.wfPres hwf₁
                rw [hq] at h
                rcases hgo : actDepsGo (activatePlugin env fuel) s₂
                    md.getPluginDependencies with _ | ⟨b2, s₃⟩
                · rw [hgo] at h; cases h
                · rw [hgo] at h
                  obtain ⟨⟨Δd, hΔd⟩, hwf₃, hdeps₃x⟩ := actDepsGo_facts env fuel IH
                    md.getPluginDependencies s₂ b2 s₃ hwf₂ hgo
                  have F : ActFacts s s₃ ((Δ₀ ++ []) ++ Δd) :=
                    (hΔ₀.toAct.aTrans hmo.toQuiet.toAct).aTrans hΔd
                  rcases b2 with _ | _
                  · simp only [Option.some.injEq, Prod.mk.injEq] at h
                    rw [← h.2]
                    exact ⟨⟨_, F⟩, hwf₃,
                      fun hb => absurd (h.1.trans hb) (by simp),
                      fun hb => absurd (h.1.trans hb) (by simp),
                      fun hb => absurd (h.1.trans hb) (by simp)⟩
                  · have hdeps₃ : ∀ d ∈ md.getPluginDependencies,
                        s₃.m_pluginStates d = PluginState.Active := hdeps₃x rfl
                    have hmd₃ : mdLookup s₃.m_pluginMetadata pid = some md :=
                      hΔd.mdPres pid md hmd₂
                    have hmdeqOf : ∀ mP, mdLookup s.m_pluginMetadata pid = some mP →
                        md = mP := by
                      intro mP hmP
                      have hmP₁ : mdLookup s₁.m_pluginMetadata pid = some mP :=
                        hΔ₀.mdPres pid mP hmP
                      have hfst := metadataAt_fst s₁ pid
                      rw [hq] at hfst
                      simp only [hmP₁, Option.getD_some] at hfst
                      exact hfst
                    rcases hhook : env.activateHook pid with _ | _ | m
                    · rw [hhook] at h
                      simp only [Option.some.injEq, Prod.mk.injEq] at h
                      rw [← h.2]
                      refine ⟨⟨((Δ₀ ++ []) ++ Δd) ++
                        (Event.hookActivate pid :: [Event.pluginActivated pid]),
                        ?_⟩, ?_, fun _ => ?_, fun _ => ⟨?_, ?_⟩, ?_⟩
                      · refine ⟨?_, ?_, ?_, ?_, ?_, ?_, ?_⟩
                        · simpa [MS.emitEvent, MS.setState] using F.flagEq
                        · intro q hqmem
                          simpa [MS.emitEvent, MS.setState] using F.plugMono q hqmem
                        · intro k m hk
                          simpa [MS.emitEvent, MS.setState] using F.mdPres k m hk
                        · simp [MS.emitEvent, MS.setState, F.traceApp]
                        · intro q hq'
                          simp only [MS.emitEvent, MS.setState]
                          rcases eq_or_ne q pid with hqe | hqe
                          · simp [hqe]
                          · simp only [if_neg hqe]
                            exact F.activePres q hq'
                        · intro q hq'
                          simp only [MS.emitEvent, MS.setState] at hq'
                          rcases eq_or_ne q pid with hqe | hqe
                          · subst hqe
                            exact Or.inr (by simp)
                          · rw [if_neg hqe] at hq'
                            rcases F.activeSrc q hq' with hc | hc
                            · exact Or.inl hc
                            · exact Or.inr (List.mem_append_left _ hc)
                        · exact act_tail_guard F hmd₃ hdeps₃
                            [Event.pluginActivated pid] (fun q => by simp)
                      · intro q hq'
                        simp only [MS.emitEvent, MS.setState] at hq' ⊢
                        rcases eq_or_ne q pid with hqe | hqe
                        · subst hqe
                          exact F.plugMono q ((isPluginLoaded_iff s q).1 hld).2
                        · rw [if_neg hqe] at hq'
                          exact hwf₃ q hq'
                      · simp [MS.emitEvent, MS.setState]
                      · simp only [MS.emitEvent, MS.setState]
                        exact F.plugMono pid ((isPluginLoaded_iff s pid).1 hld).2
                      · simp only [MS.emitEvent, MS.setState]
                        exact F.flagEq.trans hinit
                      · intro _ _ mP hmP d hd
                        have hd3 := hdeps₃ d ((hmdeqOf mP hmP) ▸ hd)
                        simp only [MS.emitEvent, MS.setState]
                        rcases eq_or_ne d pid with hqe | hqe
                        · simp [hqe]
                        · simp [hqe, hd3]
                    · rw [hhook] at h
                      simp only [Option.some.injEq, Prod.mk.injEq] at h
                      rw [← h.2]
                      refine ⟨⟨((Δ₀ ++ []) ++ Δd) ++ (Event.hookActivate pid ::
                        [Event.pluginFailed pid "Failed to activate"]), ?_⟩, ?_,
                        fun hb => absurd (h.1.trans hb) (by simp),
                        fun hb => absurd (h.1.trans hb) (by simp),
                        fun hb => absurd (h.1.trans hb) (by simp)⟩
                      · refine ⟨?_, ?_, ?_, ?_, ?_, ?_, ?_⟩
                        · simpa [MS.emitEvent, MS.setState] using F.flagEq
                        · intro q hqmem
                          simpa [MS.emitEvent, MS.setState] using F.plugMono q hqmem
                        · intro k m hk
                          simpa [MS.emitEvent, MS.setState] using F.mdPres k m hk
                        · simp [MS.emitEvent, MS.setState, F.traceApp]
                        · intro q hq'
                          have hqe : q ≠ pid := fun he => hactive (he ▸ hq')
                          simp only [MS.emitEvent, MS.setState, if_neg hqe]
                          exact F.activePres q hq'
                        · intro q hq'
                          simp only [MS.emitEvent, MS.setState] at hq'
                          rcases eq_or_ne q pid with hqe | hqe
                          · rw [if_pos hqe] at hq'
                            exact absurd hq' (by decide)
                          · rw [if_neg hqe] at hq'
                            rcases F.activeSrc q hq' with hc | hc
                            · exact Or.inl hc
                            · exact Or.inr (List.mem_append_left _ hc)
                        · exact act_tail_guard F hmd₃ hdeps₃
                            [Event.pluginFailed pid "Failed to activate"]
                            (fun q => by simp)
                      · intro q hq'
                        simp only [MS.emitEvent, MS.setState] at hq'
                        rcases eq_or_ne q pid with hqe | hqe
                        · rw [if_pos hqe] at hq'
                          exact absurd hq' (by decide)
                        · rw [if_neg hqe] at hq'
                          simp only [MS.emitEvent, MS.setState]
                          exact hwf₃ q hq'
                    · rw [hhook] at h
                      simp only [Option.some.injEq, Prod.mk.injEq] at h
                      rw [← h.2]
                      refine ⟨⟨((Δ₀ ++ []) ++ Δd) ++ (Event.hookActivate pid ::
                        [Event.pluginFailed pid
                          ("Exception during activation: " ++ m)]), ?_⟩, ?_,
                        fun hb => absurd (h.1.trans hb) (by simp),
                        fun hb => absurd (h.1.trans hb) (by simp),
                        fun hb => absurd (h.1.trans hb) (by simp)⟩
                      · refine ⟨?_, ?_, ?_, ?_, ?_, ?_, ?_⟩
                        · simpa [MS.emitEvent, MS.setState] using F.flagEq
                        · intro q hqmem
                          simpa [MS.emitEvent, MS.setState] using F.plugMono q hqmem
                        · intro k mm hk
                          simpa [MS.emitEvent, MS.setState] using F.mdPres k mm hk
                        · simp [MS.emitEvent, MS.setState, F.traceApp]
                        · intro q hq'
                          have hqe : q ≠ pid := fun he => hactive (he ▸ hq')
                          simp only [MS.emitEvent, MS.setState, if_neg hqe]
                          exact F.activePres q hq'
                        · intro q hq'
                          simp only [MS.emitEvent, MS.setState] at hq'
                          rcases eq_or_ne q pid with hqe | hqe
                          · rw [if_pos hqe] at hq'
                            exact absurd hq' (by decide)
                          · rw [if_neg hqe] at hq'
                            rcases F.activeSrc q hq' with hc | hc
                            · exact Or.inl hc
                            · exact Or.inr (List.mem_append_left _ hc)
                        · exact act_tail_guard F hmd₃ hdeps₃
                            [Event.pluginFailed pid
                              ("Exception during activation: " ++ m)]
                            (fun q => by simp)
                      · intro q hq'
                        simp only [MS.emitEvent, MS.setState] at hq'
                        rcases eq_or_ne q pid with hqe | hqe
                        · rw [if_pos hqe] at hq'
                          exact absurd hq' (by decide)
                        · rw [if_neg hqe] at hq'
                          simp only [MS.emitEvent, MS.setState]
                          exact hwf₃ q hq'

/-! ### Supporting lemmas for the claim theorems -/

theorem mdLookup_mem {md : List (String × PluginMetadata)} {k : String}
    {m : PluginMetadata} (h : mdLookup md k = some m) : (k, m) ∈ md := by
  induction md with
  | nil => cases h
  | cons hd tl ih =>
    obtain ⟨k', v⟩ := hd
    simp only [mdLookup] at h
    by_cases hk : k = k'
    · rw [if_pos hk] at h
      injection h with h
      subst hk; rw [← h]
      exact List.mem_cons_self _ _
    · rw [if_neg hk] at h
      exact List.mem_cons_of_mem _ (ih h)

theorem MetaOnly.isLoadedEq {s s' : MS} (h : MetaOnly s s') (d : String) :
    s'.isPluginLoaded d = s.isPluginLoaded d := by
  unfold MS.isPluginLoaded
  rw [h.flagEq, h.plugEq]

theorem metadataAt_lookup (s : MS) (pid q : String) :
    mdLookup (s.metadataAt pid).2.m_pluginMetadata q =
      if mdLookup s.m_pluginMetadata pid = none ∧ q = pid
      then some PluginMetadata.mkDefault
      else mdLookup s.m_pluginMetadata q := by
  unfold MS.metadataAt
  rcases h : mdLookup s.m_pluginMetadata pid with _ | m
  · simp only [h, mdLookup_keyInsert]
    by_cases hq : q = pid <;> simp [hq, h]
  · simp [h]

theorem loadPlugin_already (env : Env) (s : MS) (pid : String)
    (h1 : s.m_initialized = true) (h2 : pid ∈ s.m_plugins) :
    loadPlugin env s pid = (true, s) := by
  have hl : s.isPluginLoaded pid = true := (isPluginLoaded_iff s pid).2 ⟨h1, h2⟩
  simp [loadPlugin, h1, hl]

theorem initPlugin_already (env : Env) (fuel : Nat) (s : MS) (pid : String)
    (h1 : s.m_initialized = true) (h2 : pid ∈ s.m_plugins)
    (h3 : s.m_pluginStates pid = PluginState.Initialized ∨
      s.m_pluginStates pid = PluginState.Active) :
    initPlugin env (fuel + 1) s pid = some (true, s) := by
  have hl : s.isPluginLoaded pid = true := (isPluginLoaded_iff s pid).2 ⟨h1, h2⟩
  simp only [initPlugin, h1, hl, Bool.not_true, Bool.false_eq_true, if_false]
  rw [if_pos h3]

theorem activatePlugin_already (env : Env) (fuel : Nat) (s : MS) (pid : String)
    (h1 : s.m_initialized = true) (h2 : pid ∈ s.m_plugins)
    (h3 : s.m_pluginStates pid = PluginState.Active) :
    activatePlugin env (fuel + 1) s pid = some (true, s) := by
  have hl : s.isPluginLoaded pid = true := (isPluginLoaded_iff s pid).2 ⟨h1, h2⟩
  simp only [activatePlugin, h1, hl, Bool.not_true, Bool.false_eq_true, if_false]
  rw [if_pos h3]

theorem actDepsGo_allActive (recur : MS → String → Option (Bool × MS)) :
    ∀ (deps : List String) (s : MS),
      (∀ d ∈ deps, s.m_pluginStates d = PluginState.Active) →
      actDepsGo recur s deps = some (true, s) := by
  intro deps
  induction deps with
  | nil => intro s _; rfl
  | cons dep rest ih =>
    intro s h
    have hd := h dep (List.mem_cons_self _ _)
    simp only [actDepsGo]
    rw [if_neg (not_not.2 hd)]
    exact ih s (fun d hdm => h d (List.mem_cons_of_mem _ hdm))

theorem initDepsGo_allReady (env : Env)
    (recur : MS → String → Option (Bool × MS)) :
    ∀ (deps : List String) (s : MS) (pid : String),
      (∀ d ∈ deps, s.isPluginLoaded d = true ∧
        (s.m_pluginStates d = PluginState.Initialized ∨
         s.m_pluginStates d = PluginState.Active)) →
      initDepsGo env recur s pid deps = some (true, s) := by
  intro deps
  induction deps with
  | nil => intro s pid _; rfl
  | cons dep rest ih =>
    intro s pid h
    have hld := (h dep (List.mem_cons_self _ _)).1
    have hst := (h dep (List.mem_cons_self _ _)).2
    simp only [initDepsGo, hld, if_true]
    have hnot : ¬((true, s).2.m_pluginStates dep ≠ PluginState.Initialized ∧
        (true, s).2.m_pluginStates dep ≠ PluginState.Active) := by
      rcases hst with hst | hst
      · exact fun hcon => hcon.1 hst
      · exact fun hcon => hcon.2 hst
    rw [if_neg hnot]
    exact ih s pid (fun d hdm => h d (List.mem_cons_of_mem _ hdm))

/-! ### Claim theorems -/

/-- C1: for registered plugins A, B where B's metadata declares a
dependency on A, `activatePlugin B` activates the dependency first.
Concretely: (1) whenever B's activate hook is invoked during the call
(a `hookActivate B` event appears among the newly emitted events),
either A was already `Active` when the call started or A's
`pluginActivated` event was emitted strictly before B's hook; and
(2) if a not-yet-active B is activated successfully, A has reached
`Active` — contrapositively, if A's activation fails, `activate(B)`
returns failure and, by (1), B's activate hook never ran. -/
theorem C1_activate_dependency_first (env : Env) (fuel : Nat) (s : MS)
    (A B : String) (mB : PluginMetadata) (b : Bool) (s' : MS)
    (hwf : WF s)
    (hmB : mdLookup s.m_pluginMetadata B = some mB)
    (hdep : A ∈ mB.getPluginDependencies)
    (hrun : activatePlugin env fuel s B = some (b, s')) :
    (∀ l₁ l₂, s'.trace = s.trace ++ (l₁ ++ Event.hookActivate B :: l₂) →
      s.m_pluginStates A = PluginState.Active ∨
        Event.pluginActivated A ∈ l₁) ∧
    (b = true → s.m_pluginStates B ≠ PluginState.Active →
      s'.m_pluginStates A = PluginState.Active) := by
  obtain ⟨⟨Δ, hΔ⟩, _, _, _, hdeps⟩ :=
    activatePlugin_facts env fuel s B b s' hwf hrun
  constructor
  · intro l₁ l₂ hsplit
    have hΔeq : Δ = l₁ ++ Event.hookActivate B :: l₂ := by
      have htr := hΔ.traceApp
      rw [htr] at hsplit
      exact List.append_cancel_left hsplit
    exact hΔ.hookGuard B A mB hmB hdep l₁ l₂ hΔeq
  · intro hb hna
    exact hdeps hb hna mB hmB A hdep

/-- Witness for C1: activating `B` in the two-plugin chain activates
`A` and succeeds. -/
theorem C1_witness :
    (activatePlugin okEnv 5 wS "B").map
      (fun p => (p.1, p.2.m_pluginStates "A")) =
      some (true, PluginState.Active) := by
  have hwf : WF wS := by
    intro q hq
    by_cases h : q = "A" ∨ q = "B" <;> simp [wS, h] at hq
  rcases hrun : activatePlugin okEnv 5 wS "B" with _ | ⟨b, s'⟩
  · have hs : (activatePlugin okEnv 5 wS "B").isSome = true := by decide
    rw [hrun] at hs; cases hs
  · have hb : b = true := by
      have hfst : (activatePlugin okEnv 5 wS "B").map Prod.fst = some true := by
        decide
      rw [hrun] at hfst
      simpa using hfst
    have hconc := (C1_activate_dependency_first okEnv 5 wS "A" "B" mdB b s' hwf
      (by decide) (by decide) hrun).2 hb (by decide)
    simp [hconc, hb]

/-- C3: unloading a loaded plugin A fails and leaves the whole state
unchanged whenever any other plugin B has registered metadata
declaring a dependency on A, regardless of B's load state. -/
theorem C3_unload_blocked_by_dependent (env : Env) (fuel : Nat) (s : MS)
    (A B : String) (mB : PluginMetadata)
    (hinit : s.m_initialized = true)
    (hld : A ∈ s.m_plugins)
    (hne : B ≠ A)
    (hmB : mdLookup s.m_pluginMetadata B = some mB)
    (hdep : mB.dependsOn A = true) :
    unloadPlugin env fuel s A = some (false, s) := by
  have hl : s.isPluginLoaded A = true := (isPluginLoaded_iff s A).2 ⟨hinit, hld⟩
  have hBmem : B ∈ s.getDependentPlugins A := by
    refine List.mem_map.2 ⟨(B, mB), List.mem_filter.2 ⟨mdLookup_mem hmB, ?_⟩, rfl⟩
    simp [hne, hdep]
  have hEmpty : (s.getDependentPlugins A).isEmpty = false := by
    cases hgl : s.getDependentPlugins A with
    | nil => rw [hgl] at hBmem; cases hBmem
    | cons hd tl => rfl
  simp [unloadPlugin, hinit, hl, hEmpty]

/-- Witness for C3: `B` (merely registered, in any state) blocks the
unload of the loaded `A` in the chain scenario. -/
theorem C3_witness : unloadPlugin okEnv 3 chainS "A" = some (false, chainS) :=
  C3_unload_blocked_by_dependent okEnv 3 chainS "A" "B" mdB (by decide)
    (by decide) (by decide) (by decide) (by decide)

/-- C8: `loadPlugin`, `initializePlugin` and `activatePlugin` are
idempotent: after a successful call, repeating the call (with no
intervening state change) succeeds again and returns the state
entirely unchanged — in particular no hook, loader call, or lifecycle
event is repeated (the trace, being part of the state, is unchanged). -/
theorem C8_lifecycle_idempotent (env : Env) (s : MS) (pid : String)
    (hwf : WF s) :
    (∀ s₁, loadPlugin env s pid = (true, s₁) →
      loadPlugin env s₁ pid = (true, s₁)) ∧
    (∀ fuel s₁, initPlugin env fuel s pid = some (true, s₁) →
      initPlugin env fuel s₁ pid = some (true, s₁)) ∧
    (∀ fuel s₁, activatePlugin env fuel s pid = some (true, s₁) →
      activatePlugin env fuel s₁ pid = some (true, s₁)) := by
  refine ⟨?_, ?_, ?_⟩
  · intro s₁ h
    have hpost := (loadPlugin_facts env s pid hwf).2
    rw [h] at hpost
    obtain ⟨hmem, hinit⟩ := hpost rfl
    exact loadPlugin_already env s₁ pid hinit hmem
  · intro fuel s₁ h
    rcases fuel with _ | n
    · cases h
    · obtain ⟨_, hpost⟩ := initPlugin_facts env (n + 1) s pid true s₁ hwf h
      obtain ⟨hstate, hmem, hinitf⟩ := hpost rfl
      exact initPlugin_already env n s₁ pid hinitf hmem hstate
  · intro fuel s₁ h
    rcases fuel with _ | n
    · cases h
    · obtain ⟨_, _, hself, hli, _⟩ :=
        activatePlugin_facts env (n + 1) s pid true s₁ hwf h
      obtain ⟨hmem, hinitf⟩ := hli rfl
      exact activatePlugin_already env n s₁ pid hinitf hmem (hself rfl)

/-- Witness for C8: loading `A` for real and then loading it again
returns success with the state unchanged. -/
theorem C8_witness :
    loadPlugin okEnv (loadPlugin okEnv sA0 "A").2 "A" =
      (true, (loadPlugin okEnv sA0 "A").2) := by
  have hwf : WF sA0 := by
    intro q hq
    simp [sA0] at hq
  have hfst : (loadPlugin okEnv sA0 "A").1 = true := by decide
  exact (C8_lifecycle_idempotent okEnv sA0 "A" hwf).1 _ (by rw [← hfst])

/-- C5 counterexample: with `X` registered as requiring framework
`99.0.0` (and framework `1.0.0`), `activate("X")` does fail, but with
the not-loaded early return: state stays `NotLoaded` (never `Failed`)
and no `pluginFailed` / `IncompatibleVersion` event is emitted —
contradicting the claim that activate itself performs the version
check. -/
theorem C5_counterexample :
    (activatePlugin okEnv 5 sX "X").map
      (fun p => (p.1, p.2.m_pluginStates "X", p.2.trace)) =
      some (false, PluginState.NotLoaded, []) := by decide

/-- C5 (amended): the version gate lives in `loadPlugin`: loading an
unloaded plugin whose metadata is framework-incompatible fails, sets
its state to `Failed` and emits the incompatibility `pluginFailed`
event; `activatePlugin` on such an (unloadable, hence unloaded) plugin
fails via the not-loaded check, leaving the state untouched. -/
theorem C5_version_gate (env : Env) (fuel : Nat) (s : MS) (pid : String)
    (m : PluginMetadata)
    (hinit : s.m_initialized = true)
    (hnl : pid ∉ s.m_plugins)
    (hm : mdLookup s.m_pluginMetadata pid = some m)
    (hincompat : m.isCompatibleWithFramework frameworkVersion = false) :
    loadPlugin env s pid =
      (false, (s.setState pid PluginState.Failed).emitEvent
        (Event.pluginFailed pid
          ("Incompatible with framework version " ++ frameworkVersion))) ∧
    activatePlugin env (fuel + 1) s pid = some (false, s) := by
  have hld : s.isPluginLoaded pid = false := by
    rcases hb : s.isPluginLoaded pid with _ | _
    · rfl
    · exact absurd ((isPluginLoaded_iff s pid).1 hb).2 hnl
  constructor
  · have hc : s.mdContains pid = true := (mdContains_iff s pid).2 ⟨m, hm⟩
    have hq : s.metadataAt pid = (m, s) := by
      unfold MS.metadataAt
      rw [hm]
    simp [loadPlugin, hinit, hld, hc, hq, hincompat]
  · simp [activatePlugin, hinit, hld]

/-- Witness for the amended C5 at the concrete scenario. -/
theorem C5_witness :
    loadPlugin okEnv sX "X" =
      (false, (sX.setState "X" PluginState.Failed).emitEvent
        (Event.pluginFailed "X"
          ("Incompatible with framework version " ++ frameworkVersion))) ∧
    activatePlugin okEnv 5 sX "X" = some (false, sX) :=
  C5_version_gate okEnv 4 sX "X" mdX (by decide) (by decide) (by decide)
    (by decide)

/-- The dependent-collection loop of `deactivatePlugin` finds nothing
when no other active plugin's registered metadata depends on `pid`. -/
theorem collectDepsGo_none (pid : String) :
    ∀ (ks : List String) (st : MS) (acc : List String),
      (∀ k ∈ ks, k ≠ pid → st.m_pluginStates k = PluginState.Active →
        ∀ m, mdLookup st.m_pluginMetadata k = some m →
          m.dependsOn pid = false) →
      (collectDepsGo pid ks st acc).1 = acc ∧
        MetaOnly st (collectDepsGo pid ks st acc).2 := by
  intro ks
  induction ks with
  | nil => intro st acc _; exact ⟨rfl, MetaOnly.mRefl st⟩
  | cons k ks ih =>
    intro st acc hcond
    simp only [collectDepsGo]
    by_cases hk : k ≠ pid ∧ st.m_pluginStates k = PluginState.Active
    · rw [if_pos hk]
      rcases hq : st.metadataAt k with ⟨mk, st₁⟩
      have hmo : MetaOnly st st₁ := by
        have hmo' := metadataAt_metaOnly st k
        rw [hq] at hmo'; exact hmo'
      have hdep : mk.dependsOn pid = false := by
        have hfst := metadataAt_fst st k
        rw [hq] at hfst
        rcases hl : mdLookup st.m_pluginMetadata k with _ | m
        · rw [hl] at hfst
          simp only [Option.getD_none] at hfst
          rw [hfst]
          simp [PluginMetadata.mkDefault, PluginMetadata.dependsOn,
            PluginMetadata.getPluginDependencies, jValue, jvalToArr]
        · rw [hl] at hfst
          simp only [Option.getD_some] at hfst
          rw [hfst]
          exact hcond k (List.mem_cons_self _ _) hk.1 hk.2 m hl
      rw [if_neg (by simp [hdep])]
      have hcond₁ : ∀ k' ∈ ks, k' ≠ pid →
          st₁.m_pluginStates k' = PluginState.Active →
          ∀ m, mdLookup st₁.m_pluginMetadata k' = some m →
            m.dependsOn pid = false := by
        intro k' hk' hkp hact m hm
        rw [hmo.statesEq] at hact
        have hlk := metadataAt_lookup st k k'
        rw [hq] at hlk
        rw [hlk] at hm
        by_cases hcase : mdLookup st.m_pluginMetadata k = none ∧ k' = k
        · rw [if_pos hcase] at hm
          injection hm with hm
          rw [← hm]
          simp [PluginMetadata.mkDefault, PluginMetadata.dependsOn,
            PluginMetadata.getPluginDependencies, jValue, jvalToArr]
        · rw [if_neg hcase] at hm
          exact hcond k' (List.mem_cons_of_mem _ hk') hkp hact m hm
      obtain ⟨h1, h2⟩ := ih st₁ acc hcond₁
      exact ⟨h1, hmo.mTrans h2⟩
    · rw [if_neg hk]
      exact ih st acc (fun k' hk' => hcond k' (List.mem_cons_of_mem _ hk'))

/-- C4: failure asymmetry of the lifecycle hooks.  (a) When the
initialize hook fails or throws, `initializePlugin` returns failure,
sets the plugin's state to `Failed`, and emits `pluginFailed` with the
corresponding message.  (b) The same for the activate hook and
`activatePlugin`.  (c) When the deactivate hook fails or throws,
`deactivatePlugin` returns failure but leaves the entire state map
unchanged — the plugin remains `Active` and retriable — and emits no
`pluginFailed` event (the only new event is the hook invocation). -/
theorem C4_hook_failure_asymmetry (env : Env) (fuel : Nat) :
    (∀ s pid b s', s.m_initialized = true → pid ∈ s.m_plugins →
      s.m_pluginStates pid = PluginState.Loaded →
      (∀ d ∈ depsOfState s pid, d ∈ s.m_plugins ∧
        (s.m_pluginStates d = PluginState.Initialized ∨
         s.m_pluginStates d = PluginState.Active)) →
      env.initHook pid ≠ HookRes.ok →
      initPlugin env (fuel + 1) s pid = some (b, s') →
      b = false ∧ s'.m_pluginStates pid = PluginState.Failed ∧
        s'.trace = s.trace ++ [Event.hookInitialize pid,
          Event.pluginFailed pid (initFailMsg (env.initHook pid))]) ∧
    (∀ s pid b s', s.m_initialized = true → pid ∈ s.m_plugins →
      s.m_pluginStates pid = PluginState.Initialized →
      (∀ d ∈ depsOfState s pid, s.m_pluginStates d = PluginState.Active) →
      env.activateHook pid ≠ HookRes.ok →
      activatePlugin env (fuel + 1) s pid = some (b, s') →
      b = false ∧ s'.m_pluginStates pid = PluginState.Failed ∧
        s'.trace = s.trace ++ [Event.hookActivate pid,
          Event.pluginFailed pid (actFailMsg (env.activateHook pid))]) ∧
    (∀ s pid b s', s.m_initialized = true → pid ∈ s.m_plugins →
      s.m_pluginStates pid = PluginState.Active →
      (∀ q ∈ s.m_plugins, q ≠ pid →
        s.m_pluginStates q = PluginState.Active →
        ∀ m, mdLookup s.m_pluginMetadata q = some m →
          m.dependsOn pid = false) →
      env.deactivateHook pid ≠ HookRes.ok →
      deactivatePlugin env (fuel + 1) s pid = some (b, s') →
      b = false ∧ s'.m_pluginStates = s.m_pluginStates ∧
        s'.trace = s.trace ++ [Event.hookDeactivate pid]) := by
  refine ⟨?_, ?_, ?_⟩
  · intro s pid b s' hinit hmem hst hdeps hhook h
    have hl : s.isPluginLoaded pid = true :=
      (isPluginLoaded_iff s pid).2 ⟨hinit, hmem⟩
    simp only [initPlugin, hinit, hl, hst, Bool.not_true, Bool.false_eq_true,
      if_false] at h
    rw [if_neg (by decide), if_neg (by decide)] at h
    rcases hq : s.metadataAt pid with ⟨md, s₁⟩
    have hmo : MetaOnly s s₁ := by
      have hmo' := metadataAt_metaOnly s pid
      rw [hq] at hmo'; exact hmo'
    have hdl : initDepsGo env (initPlugin env fuel) s₁ pid
        md.getPluginDependencies = some (true, s₁) := by
      apply initDepsGo_allReady
      intro d hd
      have hdeq : md.getPluginDependencies = depsOfState s pid := by
        have hde := metadataAt_deps s pid
        rw [hq] at hde; exact hde
      rw [hdeq] at hd
      obtain ⟨hdm, hds⟩ := hdeps d hd
      refine ⟨?_, ?_⟩
      · rw [hmo.isLoadedEq d]
        exact (isPluginLoaded_iff s d).2 ⟨hinit, hdm⟩
      · rw [hmo.statesEq]
        exact hds
    rw [hq] at h
    rw [hdl] at h
    rcases hres : env.initHook pid with _ | _ | m
    · exact absurd hres hhook
    · rw [hres] at h
      simp only [Option.some.injEq, Prod.mk.injEq] at h
      rw [← h.2]
      refine ⟨h.1.symm, by simp [MS.emitEvent, MS.setState], ?_⟩
      simp [MS.emitEvent, MS.setState, hmo.traceEq, hres, initFailMsg]
    · rw [hres] at h
      simp only [Option.some.injEq, Prod.mk.injEq] at h
      rw [← h.2]
      refine ⟨h.1.symm, by simp [MS.emitEvent, MS.setState], ?_⟩
      simp [MS.emitEvent, MS.setState, hmo.traceEq, hres, initFailMsg]
  · intro s pid b s' hinit hmem hst hdeps hhook h
    have hl : s.isPluginLoaded pid = true :=
      (isPluginLoaded_iff s pid).2 ⟨hinit, hmem⟩
    simp only [activatePlugin, hinit, hl, hst, Bool.not_true,
      Bool.false_eq_true, if_false] at h
    rw [if_neg (by decide), if_neg (by decide)] at h
    rw [if_neg (by simp)] at h
    dsimp only at h
    rcases hq : s.metadataAt pid with ⟨md, s₁⟩
    have hmo : MetaOnly s s₁ := by
      have hmo' := metadataAt_metaOnly s pid
      rw [hq] at hmo'; exact hmo'
    have hdl : actDepsGo (activatePlugin env fuel) s₁
        md.getPluginDependencies = some (true, s₁) := by
      apply actDepsGo_allActive
      intro d hd
      have hdeq : md.getPluginDependencies = depsOfState s pid := by
        have hde := metadataAt_deps s pid
        rw [hq] at hde; exact hde
      rw [hdeq] at hd
      rw [hmo.statesEq]
      exact hdeps d hd
    rw [hq] at h
    rw [hdl] at h
    rcases hres : env.activateHook pid with _ | _ | m
    · exact absurd hres hhook
    · rw [hres] at h
      simp only [Option.some.injEq, Prod.mk.injEq] at h
      rw [← h.2]
      refine ⟨h.1.symm, by simp [MS.emitEvent, MS.setState], ?_⟩
      simp [MS.emitEvent, MS.setState, hmo.traceEq, hres, actFailMsg]
    · rw [hres] at h
      simp only [Option.some.injEq, Prod.mk.injEq] at h
      rw [← h.2]
      refine ⟨h.1.symm, by simp [MS.emitEvent, MS.setState], ?_⟩
      simp [MS.emitEvent, MS.setState, hmo.traceEq, hres, actFailMsg]
  · intro s pid b s' hinit hmem hst hnodep hhook h
    have hl : s.isPluginLoaded pid = true :=
      (isPluginLoaded_iff s pid).2 ⟨hinit, hmem⟩
    simp only [deactivatePlugin, hinit, hl, Bool.not_true,
      Bool.false_eq_true, if_false] at h
    rw [if_neg (not_not.2 hst)] at h
    obtain ⟨hacc, hmo⟩ := collectDepsGo_none pid s.m_plugins s [] hnodep
    rcases hc : collectDepsGo pid s.m_plugins s [] with ⟨deps, s₁⟩
    rw [hc] at hacc hmo
    simp only at hacc hmo
    rw [hacc] at hc
    simp only [collectActiveDependents, hc] at h
    simp only [deactDepsGo] at h
    rcases hres : env.deactivateHook pid with _ | _ | m
    · exact absurd hres hhook
    · rw [hres] at h
      simp only [Option.some.injEq, Prod.mk.injEq] at h
      rw [← h.2]
      exact ⟨h.1.symm, by simp [MS.emitEvent, hmo.statesEq],
        by simp [MS.emitEvent, hmo.traceEq]⟩
    · rw [hres] at h
      simp only [Option.some.injEq, Prod.mk.injEq] at h
      rw [← h.2]
      exact ⟨h.1.symm, by simp [MS.emitEvent, hmo.statesEq],
        by simp [MS.emitEvent, hmo.traceEq]⟩

/-- Witness for C4 at concrete scenarios: a failing initialize hook
on the loaded `P` and a failing deactivate hook on the active `P`. -/
theorem C4_witness :
    ((initPlugin failEnv 3 (sP PluginState.Loaded) "P").map
      (fun p => (p.1, p.2.m_pluginStates "P", p.2.trace)) =
      some (false, PluginState.Failed,
        [Event.hookInitialize "P", Event.pluginFailed "P" "Failed to initialize"])) ∧
    ((deactivatePlugin failEnv 3 (sP PluginState.Active) "P").map
      (fun p => (p.1, p.2.m_pluginStates "P", p.2.trace)) =
      some (false, PluginState.Active, [Event.hookDeactivate "P"])) := by
  constructor
  · rcases hrun : initPlugin failEnv 3 (sP PluginState.Loaded) "P" with _ | ⟨b, s'⟩
    · have hs : (initPlugin failEnv 3 (sP PluginState.Loaded) "P").isSome = true := by
        decide
      rw [hrun] at hs; cases hs
    · obtain ⟨hb, hstf, htr⟩ := (C4_hook_failure_asymmetry failEnv 2).1
        (sP PluginState.Loaded) "P" b s' (by decide) (by decide) (by decide)
        (by
          intro d hd
          have hnil : depsOfState (sP PluginState.Loaded) "P" = [] := by decide
          rw [hnil] at hd
          exact absurd hd (List.not_mem_nil d)) (by decide) hrun
      simp [hb, hstf, htr]
      decide
  · rcases hrun : deactivatePlugin failEnv 3 (sP PluginState.Active) "P" with _ | ⟨b, s'⟩
    · have hs : (deactivatePlugin failEnv 3 (sP PluginState.Active) "P").isSome
          = true := by decide
      rw [hrun] at hs; cases hs
    · obtain ⟨hb, hstf, htr⟩ := (C4_hook_failure_asymmetry failEnv 2).2.2
        (sP PluginState.Active) "P" b s' (by decide) (by decide) (by decide)
        (by
          intro q hq hne
          have hqp : q = "P" := by simpa [sP] using hq
          exact absurd hqp hne) (by decide) hrun
      have hstp : s'.m_pluginStates "P" = PluginState.Active := by
        rw [hstf]; decide
      simp [hb, hstp, htr]
      decide

/-- C9: a successful `activatePlugin` followed immediately by
`deactivatePlugin` (deactivate hook succeeding, no other active
dependents) succeeds and leaves the plugin in state `Initialized` —
by the `PluginState` constructors this is distinct from `NotLoaded`,
`Active` and `Inactive`. -/
theorem C9_activate_deactivate_roundtrip (env : Env) (fuel fuel₂ : Nat)
    (s s₁ : MS) (pid : String)
    (hwf : WF s)
    (hrun : activatePlugin env fuel s pid = some (true, s₁))
    (hhook : env.deactivateHook pid = HookRes.ok)
    (hnodep : ∀ q ∈ s₁.m_plugins, q ≠ pid →
      s₁.m_pluginStates q = PluginState.Active →
      ∀ m, mdLookup s₁.m_pluginMetadata q = some m →
        m.dependsOn pid = false) :
    ∃ s₂, deactivatePlugin env (fuel₂ + 1) s₁ pid = some (true, s₂) ∧
      s₂.m_pluginStates pid = PluginState.Initialized := by
  obtain ⟨_, _, hself, hli, _⟩ :=
    activatePlugin_facts env fuel s pid true s₁ hwf hrun
  obtain ⟨hmem, hinit⟩ := hli rfl
  have hact : s₁.m_pluginStates pid = PluginState.Active := hself rfl
  have hl : s₁.isPluginLoaded pid = true :=
    (isPluginLoaded_iff s₁ pid).2 ⟨hinit, hmem⟩
  obtain ⟨hacc, hmo⟩ := collectDepsGo_none pid s₁.m_plugins s₁ [] hnodep
  rcases hc : collectDepsGo pid s₁.m_plugins s₁ [] with ⟨deps, t⟩
  rw [hc] at hacc hmo
  simp only at hacc hmo
  rw [hacc] at hc
  refine ⟨((t.emitEvent (Event.hookDeactivate pid)).setState pid
    PluginState.Initialized).emitEvent (Event.pluginDeactivated pid), ?_, ?_⟩
  · simp only [deactivatePlugin, hinit, hl, Bool.not_true, Bool.false_eq_true,
      if_false]
    rw [if_neg (not_not.2 hact)]
    simp only [collectActiveDependents, hc]
    simp only [deactDepsGo, hhook]
  · simp [MS.emitEvent, MS.setState]

/-- Witness for C9: activate `B` in the chain, then deactivate it;
the state comes back to `Initialized`. -/
theorem C9_witness :
    ((activatePlugin okEnv 5 wS "B").bind
      (fun p => deactivatePlugin okEnv 3 p.2 "B")).map
      (fun p => (p.1, p.2.m_pluginStates "B")) =
      some (true, PluginState.Initialized) := by
  have hwf : WF wS := by
    intro q hq
    by_cases h : q = "A" ∨ q = "B" <;> simp [wS, h] at hq
  rcases hrun : activatePlugin okEnv 5 wS "B" with _ | ⟨b, s₁⟩
  · have hs : (activatePlugin okEnv 5 wS "B").isSome = true := by decide
    rw [hrun] at hs; cases hs
  · have hb : b = true := by
      have hfst : (activatePlugin okEnv 5 wS "B").map Prod.fst = some true := by
        decide
      rw [hrun] at hfst
      simpa using hfst
    subst hb
    have hplug : s₁.m_plugins = ["A", "B"] := by
      have hp : (activatePlugin okEnv 5 wS "B").map (fun p => p.2.m_plugins) =
          some ["A", "B"] := by decide
      rw [hrun] at hp
      simpa using hp
    have hmdA : mdLookup s₁.m_pluginMetadata "A" = some mdA := by
      have hp : (activatePlugin okEnv 5 wS "B").map
          (fun p => mdLookup p.2.m_pluginMetadata "A") = some (some mdA) := by
        decide
      rw [hrun] at hp
      simpa using hp
    have hnodep : ∀ q ∈ s₁.m_plugins, q ≠ "B" →
        s₁.m_pluginStates q = PluginState.Active →
        ∀ m, mdLookup s₁.m_pluginMetadata q = some m →
          m.dependsOn "B" = false := by
      intro q hq hne _ m hm
      rw [hplug] at hq
      simp only [List.mem_cons, List.not_mem_nil, or_false] at hq
      rcases hq with hq | hq
      · subst hq
        rw [hmdA] at hm
        injection hm with hm
        rw [← hm]
        decide
      · exact absurd hq hne
    obtain ⟨s₂, hdeact, hst⟩ := C9_activate_deactivate_roundtrip okEnv 5 2
      wS s₁ "B" hwf hrun (by decide) hnodep
    have hdeact3 : deactivatePlugin okEnv 3 s₁ "B" = some (true, s₂) := hdeact
    simp [hdeact3, hst]

/-- The collection loop of `deactivatePlugin` only touches the
metadata registry. -/
theorem collectDepsGo_metaOnly (pid : String) :
    ∀ (ks : List String) (st : MS) (acc : List String),
      MetaOnly st (collectDepsGo pid ks st acc).2 := by
  intro ks
  induction ks with
  | nil => intro st acc; exact MetaOnly.mRefl st
  | cons k ks ih =>
    intro st acc
    simp only [collectDepsGo]
    by_cases hk : k ≠ pid ∧ st.m_pluginStates k = PluginState.Active
    · rw [if_pos hk]
      have hmo := metadataAt_metaOnly st k
      split
      · exact hmo.mTrans (ih _ _)
      · exact hmo.mTrans (ih _ _)
    · rw [if_neg hk]
      exact ih st acc

/-- `deactivatePlugin` extends the trace and never emits loader
release or bus purge events. -/
theorem deactivatePlugin_trace (env : Env) :
    ∀ (fuel : Nat) (s : MS) (pid : String) (b : Bool) (s' : MS),
      deactivatePlugin env fuel s pid = some (b, s') →
      ∃ Δ, s'.trace = s.trace ++ Δ ∧
        ∀ q, Event.loaderRelease q ∉ Δ ∧ Event.busPurge q ∉ Δ := by
  intro fuel
  induction fuel with
  | zero => intro s pid b s' h; cases h
  | succ fuel ihf =>
    have hloop : ∀ (deps : List String) (s : MS) (b : Bool) (s' : MS),
        deactDepsGo (deactivatePlugin env fuel) s deps = some (b, s') →
        ∃ Δ, s'.trace = s.trace ++ Δ ∧
          ∀ q, Event.loaderRelease q ∉ Δ ∧ Event.busPurge q ∉ Δ := by
      intro deps
      induction deps with
      | nil =>
        intro s b s' h
        simp only [deactDepsGo, Option.some.injEq, Prod.mk.injEq] at h
        rw [← h.2]
        exact ⟨[], by simp, fun q => by simp⟩
      | cons dep rest ihd =>
        intro s b s' h
        simp only [deactDepsGo] at h
        rcases hrec : deactivatePlugin env fuel s dep with _ | ⟨b1, s₁⟩
        · rw [hrec] at h; cases h
        · rw [hrec] at h
          obtain ⟨Δ₁, h₁t, h₁n⟩ := ihf s dep b1 s₁ hrec
          rcases b1 with _ | _
          · simp only [Option.some.injEq, Prod.mk.injEq] at h
            rw [← h.2]
            exact ⟨Δ₁, h₁t, h₁n⟩
          · obtain ⟨Δ₂, h₂t, h₂n⟩ := ihd s₁ b s' h
            refine ⟨Δ₁ ++ Δ₂, by rw [h₂t, h₁t, List.append_assoc], fun q => ?_⟩
            have hq1 := h₁n q
            have hq2 := h₂n q
            simp only [List.mem_append]
            exact ⟨fun hm => hm.elim hq1.1 hq2.1, fun hm => hm.elim hq1.2 hq2.2⟩
    intro s pid b s' h
    rcases hinit : s.m_initialized with _ | _
    · simp only [deactivatePlugin, hinit, Bool.not_false, if_true,
        Option.some.injEq, Prod.mk.injEq] at h
      rw [← h.2]
      exact ⟨[], by simp, fun q => by simp⟩
    · simp only [deactivatePlugin, hinit, Bool.not_true, Bool.false_eq_true,
        if_false] at h
      by_cases hld : s.isPluginLoaded pid = true
      · simp only [hld, Bool.not_true, Bool.false_eq_true, if_false] at h
        by_cases hact : s.m_pluginStates pid ≠ PluginState.Active
        · rw [if_pos hact] at h
          simp only [Option.some.injEq, Prod.mk.injEq] at h
          rw [← h.2]
          exact ⟨[], by simp, fun q => by simp⟩
        · rw [if_neg hact] at h
          rcases hc : collectActiveDependents s pid with ⟨deps, s₁⟩
          have hmo : MetaOnly s s₁ := by
            have hmo' := collectDepsGo_metaOnly pid s.m_plugins s []
            simp only [collectActiveDependents] at hc
            rw [hc] at hmo'; exact hmo'
          rw [hc] at h
          rcases hgo : deactDepsGo (deactivatePlugin env fuel) s₁ deps
            with _ | ⟨b2, s₂⟩
          · rw [hgo] at h; cases h
          · rw [hgo] at h
            obtain ⟨Δ₂, h₂t, h₂n⟩ := hloop deps s₁ b2 s₂ hgo
            have h₂t' : s₂.trace = s.trace ++ Δ₂ := by
              rw [h₂t, hmo.traceEq]
            rcases b2 with _ | _
            · simp only [Option.some.injEq, Prod.mk.injEq] at h
              rw [← h.2]
              exact ⟨Δ₂, h₂t', h₂n⟩
            · rcases hres : env.deactivateHook pid with _ | _ | m
              all_goals rw [hres] at h
              · simp only [Option.some.injEq, Prod.mk.injEq] at h
                rw [← h.2]
                refine ⟨Δ₂ ++ [Event.hookDeactivate pid,
                  Event.pluginDeactivated pid], ?_, fun q => ?_⟩
                · simp [MS.emitEvent, MS.setState, h₂t']
                · have hq2 := h₂n q
                  simp only [List.mem_append]
                  constructor
                  · intro hm
                    rcases hm with hm | hm
                    · exact hq2.1 hm
                    · simp at hm
                  · intro hm
                    rcases hm with hm | hm
                    · exact hq2.2 hm
                    · simp at hm
              · simp only [Option.some.injEq, Prod.mk.injEq] at h
                rw [← h.2]
                refine ⟨Δ₂ ++ [Event.hookDeactivate pid], ?_, fun q => ?_⟩
                · simp [MS.emitEvent, h₂t']
                · have hq2 := h₂n q
                  simp only [List.mem_append]
                  constructor
                  · intro hm
                    rcases hm with hm | hm
                    · exact hq2.1 hm
                    · simp at hm
                  · intro hm
                    rcases hm with hm | hm
                    · exact hq2.2 hm
                    · simp at hm
              · simp only [Option.some.injEq, Prod.mk.injEq] at h
                rw [← h.2]
                refine ⟨Δ₂ ++ [Event.hookDeactivate pid], ?_, fun q => ?_⟩
                · simp [MS.emitEvent, h₂t']
                · have hq2 := h₂n q
                  simp only [List.mem_append]
                  constructor
                  · intro hm
                    rcases hm with hm | hm
                    · exact hq2.1 hm
                    · simp at hm
                  · intro hm
                    rcases hm with hm | hm
                    · exact hq2.2 hm
                    · simp at hm
      · have hld2 : s.isPluginLoaded pid = false := by
          revert hld; cases s.isPluginLoaded pid <;> simp
        simp only [hld2, Bool.not_false, if_true, Option.some.injEq,
          Prod.mk.injEq] at h
        rw [← h.2]
        exact ⟨[], by simp, fun q => by simp⟩

/-- In a trace extension of the form `ΔX ++ busPurge :: loaderRelease
:: post` with no other release events, every split at the release
event has the purge in its prefix. -/
theorem busPurge_found {ΔX post l₁ l₂ : List Event} {pid : String}
    (hsplit : ΔX ++ (Event.busPurge pid :: Event.loaderRelease pid :: post) =
      l₁ ++ Event.loaderRelease pid :: l₂)
    (hnX : Event.loaderRelease pid ∉ ΔX)
    (hnpost : Event.loaderRelease pid ∉ post) :
    Event.busPurge pid ∈ l₁ := by
  rcases append_split_cons hsplit with ⟨t, ht1, _⟩ | ⟨p, hp1, hp2⟩
  · exact absurd (ht1 ▸ List.mem_append_right l₁ (List.mem_cons_self _ _)) hnX
  · rcases p with _ | ⟨x, p'⟩
    · simp only [List.nil_append] at hp2
      injection hp2 with h1 h2
      exact Event.noConfusion h1
    · injection hp2 with h1 h2
      rcases p' with _ | ⟨y, p''⟩
      · rw [hp1]
        refine List.mem_append_right _ ?_
        rw [← h1]
        exact List.mem_cons_self _ _
      · injection h2 with h3 h4
        exact absurd (h4 ▸ List.mem_append_right p'' (List.mem_cons_self _ _))
          hnpost

/-- The tail of `unloadPlugin` always appends `busPurge pid`
immediately followed by `loaderRelease pid`. -/
theorem unloadTail_trace (env : Env) (s : MS) (pid : String) :
    ∃ post, (unloadTail env s pid).2.trace =
      s.trace ++ (Event.busPurge pid :: Event.loaderRelease pid :: post) ∧
      Event.loaderRelease pid ∉ post := by
  unfold unloadTail
  rcases hr : env.releaseOk pid with _ | _
  · exact ⟨[], by simp [hr, MS.emitEvent, MS.purgeHandlers], by simp⟩
  · exact ⟨[Event.pluginUnloaded pid],
      by simp [hr, MS.emitEvent, MS.setState, MS.purgeHandlers], by simp⟩

theorem no_split_of_unchanged {tr l₁ l₂ : List Event} {e : Event}
    (h : tr = tr ++ (l₁ ++ e :: l₂)) : False := by
  have h2 : tr ++ ([] : List Event) = tr ++ (l₁ ++ e :: l₂) := by
    rw [List.append_nil]; exact h
  have h3 := List.append_cancel_left h2
  exact absurd h3.symm (by simp)

/-- C7 counterexample: a loaded, active plugin with no dependents
whose deactivate hook fails: `unloadPlugin` fails and the bus purge
never happens (the handler is still registered and no `busPurge`
event was emitted), contradicting the claim that handlers are purged
on every non-dependent-blocked unload call even when the unload fails. -/
theorem C7_counterexample :
    (unloadPlugin failEnv 3 (sP PluginState.Active) "P").map
      (fun p => (p.1, p.2.m_handlers, p.2.trace)) =
      some (false, ["P:msg"], [Event.hookDeactivate "P"]) := by decide

/-- C7 (amended): the handler purge happens on every `unloadPlugin`
call that reaches the module-release attempt — it always precedes the
`loaderRelease` attempt in the emitted events — and it persists even
when the release then fails (the unload returns failure with the
handlers already purged).  When the prior deactivation or shutdown
hook fails, the call returns before purging. -/
theorem C7_purge_precedes_release (env : Env) (fuel : Nat) (s : MS)
    (pid : String) :
    (∀ r s', unloadPlugin env fuel s pid = some (r, s') →
      ∀ l₁ l₂, s'.trace = s.trace ++ (l₁ ++ Event.loaderRelease pid :: l₂) →
        Event.busPurge pid ∈ l₁) ∧
    (s.m_initialized = true → pid ∈ s.m_plugins →
      s.getDependentPlugins pid = [] →
      s.m_pluginStates pid = PluginState.Loaded →
      env.releaseOk pid = false →
      unloadPlugin env fuel s pid = some (false,
        ((s.purgeHandlers pid).emitEvent (Event.busPurge pid)).emitEvent
          (Event.loaderRelease pid))) := by
  constructor
  · intro r s' h l₁ l₂ hsplit
    rcases hinit : s.m_initialized with _ | _
    · simp only [unloadPlugin, hinit, Bool.not_false, if_true,
        Option.some.injEq, Prod.mk.injEq] at h
      rw [← h.2] at hsplit
      exact (no_split_of_unchanged hsplit).elim
    · simp only [unloadPlugin, hinit, Bool.not_true, Bool.false_eq_true,
        if_false] at h
      by_cases hld : s.isPluginLoaded pid = true
      case neg =>
        have hld2 : s.isPluginLoaded pid = false := by
          revert hld; cases s.isPluginLoaded pid <;> simp
        simp only [hld2, Bool.not_false, if_true, Option.some.injEq,
          Prod.mk.injEq] at h
        rw [← h.2] at hsplit
        exact (no_split_of_unchanged hsplit).elim
      case pos =>
        simp only [hld, Bool.not_true, Bool.false_eq_true, if_false] at h
        by_cases hdeps : (s.getDependentPlugins pid).isEmpty = true
        case neg =>
          have hd2 : (s.getDependentPlugins pid).isEmpty = false := by
            revert hdeps; cases (s.getDependentPlugins pid).isEmpty <;> simp
          simp only [hd2, Bool.not_false, if_true, Option.some.injEq,
            Prod.mk.injEq] at h
          rw [← h.2] at hsplit
          exact (no_split_of_unchanged hsplit).elim
        case pos =>
          simp only [hdeps, Bool.not_true, Bool.false_eq_true, if_false] at h
          rcases hd : (if s.isPluginActive pid then
              deactivatePlugin env fuel s pid else some (true, s))
            with _ | ⟨b1, s₁⟩
          · rw [hd] at h; cases h
          · have hXfacts : ∃ ΔX, s₁.trace = s.trace ++ ΔX ∧
                Event.loaderRelease pid ∉ ΔX := by
              by_cases ha : s.isPluginActive pid = true
              · rw [if_pos ha] at hd
                obtain ⟨Δ, ht, hn⟩ :=
                  deactivatePlugin_trace env fuel s pid b1 s₁ hd
                exact ⟨Δ, ht, (hn pid).1⟩
              · rw [if_neg ha] at hd
                simp only [Option.some.injEq, Prod.mk.injEq] at hd
                rw [← hd.2]
                exact ⟨[], by simp, by simp⟩
            obtain ⟨ΔX, hXt, hXn⟩ := hXfacts
            rw [hd] at h
            rcases b1 with _ | _
            · simp only [Option.some.injEq, Prod.mk.injEq] at h
              rw [← h.2, hXt] at hsplit
              have hc := List.append_cancel_left hsplit
              exact absurd (hc ▸ List.mem_append_right l₁
                (List.mem_cons_self _ _)) hXn
            · dsimp only at h
              by_cases hsi : s₁.m_pluginStates pid = PluginState.Initialized
              · rw [if_pos hsi] at h
                rcases hsh : env.shutdownHook pid with _ | _
                · simp only [hsh, Bool.not_false, if_true,
                    Option.some.injEq, Prod.mk.injEq] at h
                  rw [← h.2] at hsplit
                  simp only [MS.emitEvent] at hsplit
                  rw [hXt] at hsplit
                  have hsplit2 : s.trace ++ (ΔX ++ [Event.hookShutdown pid]) =
                      s.trace ++ (l₁ ++ Event.loaderRelease pid :: l₂) := by
                    rw [← hsplit, List.append_assoc]
                  have hc := List.append_cancel_left hsplit2
                  have hmem := hc ▸ List.mem_append_right l₁
                    (List.mem_cons_self (Event.loaderRelease pid) l₂)
                  rcases List.mem_append.1 hmem with hm | hm
                  · exact absurd hm hXn
                  · simp at hm
                · simp only [hsh, Bool.not_true, Bool.false_eq_true,
                    if_false, Option.some.injEq] at h
                  obtain ⟨post, htt, hpn⟩ := unloadTail_trace env
                    (s₁.emitEvent (Event.hookShutdown pid)) pid
                  have hs' : s' = (unloadTail env
                      (s₁.emitEvent (Event.hookShutdown pid)) pid).2 := by
                    rw [h]
                  rw [hs', htt] at hsplit
                  simp only [MS.emitEvent] at hsplit
                  rw [hXt] at hsplit
                  have hsplit2 : s.trace ++ ((ΔX ++ [Event.hookShutdown pid]) ++
                      (Event.busPurge pid :: Event.loaderRelease pid :: post)) =
                      s.trace ++ (l₁ ++ Event.loaderRelease pid :: l₂) := by
                    rw [← hsplit]
                    simp [List.append_assoc]
                  have hc := List.append_cancel_left hsplit2
                  refine busPurge_found hc ?_ hpn
                  intro hm
                  rcases List.mem_append.1 hm with hm | hm
                  · exact hXn hm
                  · simp at hm
              · rw [if_neg hsi] at h
                simp only [Option.some.injEq] at h
                obtain ⟨post, htt, hpn⟩ := unloadTail_trace env s₁ pid
                have hs' : s' = (unloadTail env s₁ pid).2 := by
                  rw [h]
                rw [hs', htt, hXt] at hsplit
                have hsplit2 : s.trace ++ (ΔX ++
                    (Event.busPurge pid :: Event.loaderRelease pid :: post)) =
                    s.trace ++ (l₁ ++ Event.loaderRelease pid :: l₂) := by
                  rw [← hsplit, List.append_assoc]
                have hc := List.append_cancel_left hsplit2
                exact busPurge_found hc hXn hpn
  · intro hinit hmem hdep0 hst hrel
    have hl : s.isPluginLoaded pid = true :=
      (isPluginLoaded_iff s pid).2 ⟨hinit, hmem⟩
    have hpa : s.isPluginActive pid = false := by
      simp [MS.isPluginActive, hinit, hst]
    have hde : (s.getDependentPlugins pid).isEmpty = true := by
      rw [hdep0]; rfl
    simp only [unloadPlugin, hinit, hl, hde, hpa, Bool.not_true,
      Bool.false_eq_true, if_false, Bool.not_false, if_true]
    rw [if_neg (by rw [hst]; decide)]
    simp [unloadTail, hrel]

/-- Witness for the amended C7: `P` loaded (state `Loaded`), release
fails: the unload fails but the handlers are purged first and the
purge precedes the release attempt in the trace. -/
theorem C7_witness :
    (unloadPlugin stuckEnv 3 (sP PluginState.Loaded) "P" = some (false,
      (((sP PluginState.Loaded).purgeHandlers "P").emitEvent
        (Event.busPurge "P")).emitEvent (Event.loaderRelease "P"))) ∧
    Event.busPurge "P" ∈ [Event.busPurge "P"] := by
  have hmain := C7_purge_precedes_release stuckEnv 3 (sP PluginState.Loaded) "P"
  have hrun := hmain.2 (by decide) (by decide) (by decide) (by decide) (by decide)
  refine ⟨hrun, ?_⟩
  exact hmain.1 false _ hrun [Event.busPurge "P"] [] (by decide)

/-- A successful `loadPluginMetadata` stores a valid, id-matching
entry. -/
theorem loadPluginMetadata_good (env : Env) (s : MS) (pid : String)
    (h : (loadPluginMetadata env s pid).1 = true) :
    goodEntry (loadPluginMetadata env s pid).2 pid := by
  rcases ho : env.metaFile pid with _ | o
  · simp [loadPluginMetadata, ho] at h
  · by_cases hv : (PluginMetadata.ofJson o).m_isValid = true
    · by_cases hid : (PluginMetadata.ofJson o).getPluginId = pid
      · refine ⟨PluginMetadata.ofJson o, ?_, hv, hid⟩
        simp [loadPluginMetadata, ho, PluginMetadata.isValid, hv, hid,
          mdLookup_keyInsert]
      · simp [loadPluginMetadata, ho, PluginMetadata.isValid, hv, hid] at h
    · have hv2 : (PluginMetadata.ofJson o).m_isValid = false := by
        revert hv; cases (PluginMetadata.ofJson o).m_isValid <;> simp
      simp [loadPluginMetadata, ho, PluginMetadata.isValid, hv2] at h

/-- A failing `loadPluginMetadata` leaves the state unchanged. -/
theorem loadPluginMetadata_fail_eq (env : Env) (s : MS) (pid : String)
    (h : (loadPluginMetadata env s pid).1 = false) :
    (loadPluginMetadata env s pid).2 = s := by
  rcases ho : env.metaFile pid with _ | o
  · simp [loadPluginMetadata, ho]
  · by_cases hv : (PluginMetadata.ofJson o).m_isValid = true
    · by_cases hid : (PluginMetadata.ofJson o).getPluginId = pid
      · simp [loadPluginMetadata, ho, PluginMetadata.isValid, hv, hid] at h
      · simp [loadPluginMetadata, ho, PluginMetadata.isValid, hv, hid]
    · have hv2 : (PluginMetadata.ofJson o).m_isValid = false := by
        revert hv; cases (PluginMetadata.ofJson o).m_isValid <;> simp
      simp [loadPluginMetadata, ho, PluginMetadata.isValid, hv2]

/-- `loadPluginMetadata` preserves good entries (it only ever installs
good entries). -/
theorem loadPluginMetadata_pres_good (env : Env) (s : MS) (pid k : String)
    (hg : goodEntry s k) : goodEntry (loadPluginMetadata env s pid).2 k := by
  by_cases hk : k = pid
  · subst hk
    rcases hb : (loadPluginMetadata env s k).1 with _ | _
    · rw [loadPluginMetadata_fail_eq env s k hb]
      exact hg
    · exact loadPluginMetadata_good env s k hb
  · obtain ⟨m, hm, hv, hid⟩ := hg
    exact ⟨m, by rw [loadPluginMetadata_lookup_ne env s pid k hk]; exact hm,
      hv, hid⟩

theorem scanGo_pres_good (env : Env) :
    ∀ (files : List String) (s : MS) (k : String),
      goodEntry s k → goodEntry (scanGo env s files).2 k := by
  intro files
  induction files with
  | nil => intro s k hg; exact hg
  | cons f rest ih =>
    intro s k hg
    simp only [scanGo]
    exact ih _ k (loadPluginMetadata_pres_good env s f k hg)

/-- Every id that `scanForPlugins` returns has a good registry entry
in the resulting state. -/
theorem scanGo_good (env : Env) :
    ∀ (files : List String) (s : MS) (pid : String),
      pid ∈ (scanGo env s files).1 → goodEntry (scanGo env s files).2 pid := by
  intro files
  induction files with
  | nil => intro s pid h; exact absurd h (List.not_mem_nil pid)
  | cons f rest ih =>
    intro s pid h
    simp only [scanGo] at h ⊢
    rcases hb : (loadPluginMetadata env s f).1 with _ | _
    · rw [hb] at h
      simp only [Bool.false_eq_true, if_false] at h
      exact ih _ pid h
    · rw [hb] at h
      simp only [if_true] at h
      rcases List.mem_cons.1 h with hf | hf
      · subst hf
        exact scanGo_pres_good env rest _ pid
          (loadPluginMetadata_good env s pid hb)
      · exact ih _ pid hf

/-- C6 counterexample: the validity check only tests field *presence*:
an object whose required `name` field is a number (not a string) still
parses as *valid* metadata, and `scanForPlugins` happily returns its
id and installs it in the registry — contradicting "invalid whenever a
required field is missing or not of string type; no such metadata
ever enters the registry". -/
theorem C6_counterexample :
    (PluginMetadata.ofJson oBadName).m_isValid = true ∧
    (scanForPlugins badEnv badS ["x"]).1 = ["x"] ∧
    mdLookup (scanForPlugins badEnv badS ["x"]).2.m_pluginMetadata "x" =
      some (PluginMetadata.ofJson oBadName) := by decide

/-- C6 (amended): validity requires only the *presence* of the four
required fields: metadata missing any of `id`, `name`, `version`,
`vendor` parses as invalid, `loadPluginMetadata` rejects it leaving
the registry unchanged, and every id returned by `scanForPlugins` has
a valid, id-matching registry entry.  (Present-but-non-string fields
pass the check; see the counterexample.) -/
theorem C6_required_field_presence (env : Env) :
    (∀ o : JObj, (jContains o "id" = false ∨ jContains o "name" = false ∨
        jContains o "version" = false ∨ jContains o "vendor" = false) →
      (PluginMetadata.ofJson o).m_isValid = false) ∧
    (∀ (s : MS) (pid : String) (o : JObj), env.metaFile pid = some o →
      (jContains o "id" = false ∨ jContains o "name" = false ∨
        jContains o "version" = false ∨ jContains o "vendor" = false) →
      loadPluginMetadata env s pid = (false, s)) ∧
    (∀ (files : List String) (s : MS) (ids : List String) (s' : MS),
      scanForPlugins env s files = (ids, s') →
      ∀ pid ∈ ids, goodEntry s' pid) := by
  have hmain : ∀ o : JObj, (jContains o "id" = false ∨
      jContains o "name" = false ∨ jContains o "version" = false ∨
      jContains o "vendor" = false) →
      (PluginMetadata.ofJson o).m_isValid = false := by
    intro o h
    simp only [PluginMetadata.ofJson, PluginMetadata.requiredOk]
    rcases h with h | h | h | h <;> simp [h]
  refine ⟨hmain, ?_, ?_⟩
  · intro s pid o ho h
    have hv := hmain o h
    unfold loadPluginMetadata
    rw [ho]
    dsimp only
    rw [if_pos (by simp [PluginMetadata.isValid, hv])]
  · intro files s ids s' h pid hpid
    unfold scanForPlugins at h
    rcases hinit : s.m_initialized with _ | _
    · rw [hinit] at h
      simp only [Bool.not_false, if_true, Prod.mk.injEq] at h
      rw [← h.1] at hpid
      exact absurd hpid (List.not_mem_nil pid)
    · rw [hinit] at h
      simp only [Bool.not_true, Bool.false_eq_true, if_false] at h
      have h1 : (scanGo env s files).1 = ids := by rw [h]
      have h2 : (scanGo env s files).2 = s' := by rw [h]
      rw [← h2]
      apply scanGo_good
      rw [h1]
      exact hpid

/-- Witness for the amended C6: metadata missing `name` is rejected
without touching the registry. -/
theorem C6_witness :
    loadPluginMetadata missEnv badS "y" = (false, badS) :=
  (C6_required_field_presence missEnv).2.1 badS "y" oMiss (by decide)
    (by decide)

/-! ### Depth-first dependency sort: termination, uniqueness, order -/

theorem buildDependencyGraph_succ (md : List (String × PluginMetadata))
    (fuel : Nat) (pid : String) (v so : List String) :
    buildDependencyGraph md (Nat.succ fuel) pid v so =
      match bdgGo (buildDependencyGraph md fuel) (depsOfMd md pid)
          (v ++ [pid]) so with
      | none => none
      | some (v₂, so₂) => some (v₂, so₂ ++ [pid]) := rfl

/-- Visited/output bookkeeping of the dependency loop, given the same
facts for the recursive visit. -/
theorem bdgGo_visited_facts (md : List (String × PluginMetadata)) (fuel : Nat)
    (IH : ∀ (pid : String) (v so v' so' : List String), pid ∉ v →
      buildDependencyGraph md fuel pid v so = some (v', so') →
      ∃ Δ, so' = so ++ Δ ∧ (∀ x, x ∈ v' ↔ x ∈ v ∨ x ∈ Δ) ∧
        Δ.Nodup ∧ (∀ x ∈ Δ, x ∉ v) ∧ pid ∈ Δ) :
    ∀ (items v so v' so' : List String),
      bdgGo (buildDependencyGraph md fuel) items v so = some (v', so') →
      ∃ Δ, so' = so ++ Δ ∧ (∀ x, x ∈ v' ↔ x ∈ v ∨ x ∈ Δ) ∧
        Δ.Nodup ∧ (∀ x ∈ Δ, x ∉ v) := by
  intro items
  induction items with
  | nil =>
    intro v so v' so' h
    simp only [bdgGo, Option.some.injEq, Prod.mk.injEq] at h
    refine ⟨[], by rw [← h.2, List.append_nil], fun x => ?_, List.nodup_nil,
      fun x hx => absurd hx (List.not_mem_nil x)⟩
    rw [← h.1]
    simp
  | cons it rest ihl =>
    intro v so v' so' h
    simp only [bdgGo] at h
    by_cases hin : it ∈ v
    · rw [if_pos hin] at h
      exact ihl v so v' so' h
    · rw [if_neg hin] at h
      rcases hb : buildDependencyGraph md fuel it v so with _ | ⟨v₁, so₁⟩
      · rw [hb] at h; cases h
      · rw [hb] at h
        obtain ⟨Δ₁, hso₁, hv₁, hnd₁, hfresh₁, _⟩ := IH it v so v₁ so₁ hin hb
        obtain ⟨Δ₂, hso₂, hv₂, hnd₂, hfresh₂⟩ := ihl v₁ so₁ v' so' h
        refine ⟨Δ₁ ++ Δ₂, by rw [hso₂, hso₁, List.append_assoc], fun x => ?_,
          ?_, fun x hx => ?_⟩
        · rw [hv₂ x, hv₁ x]
          simp only [List.mem_append]
          tauto
        · refine List.Nodup.append hnd₁ hnd₂ (fun x hx1 hx2 => ?_)
          exact hfresh₂ x hx2 ((hv₁ x).2 (Or.inr hx1))
        · rcases List.mem_append.1 hx with hx | hx
          · exact hfresh₁ x hx
          · exact fun hxv => hfresh₂ x hx ((hv₁ x).2 (Or.inl hxv))

/-- Visited/output bookkeeping of `buildDependencyGraph`: each call on
an unvisited id appends a duplicate-free block of previously
unvisited ids (containing the id itself), and the visited set grows
by exactly that block. -/
theorem bdg_visited_facts (md : List (String × PluginMetadata)) :
    ∀ (fuel : Nat) (pid : String) (v so v' so' : List String), pid ∉ v →
      buildDependencyGraph md fuel pid v so = some (v', so') →
      ∃ Δ, so' = so ++ Δ ∧ (∀ x, x ∈ v' ↔ x ∈ v ∨ x ∈ Δ) ∧
        Δ.Nodup ∧ (∀ x ∈ Δ, x ∉ v) ∧ pid ∈ Δ := by
  intro fuel
  induction fuel with
  | zero => intro pid v so v' so' _ h; cases h
  | succ fuel ih =>
    intro pid v so v' so' hpv h
    rw [buildDependencyGraph_succ] at h
    rcases hb : bdgGo (buildDependencyGraph md fuel) (depsOfMd md pid)
        (v ++ [pid]) so with _ | ⟨v₂, so₂⟩
    · rw [hb] at h; cases h
    · rw [hb] at h
      simp only [Option.some.injEq, Prod.mk.injEq] at h
      obtain ⟨ΔL, hsoL, hvL, hndL, hfreshL⟩ :=
        bdgGo_visited_facts md fuel ih (depsOfMd md pid) (v ++ [pid]) so
          v₂ so₂ hb
      refine ⟨ΔL ++ [pid], ?_, fun x => ?_, ?_, fun x hx => ?_, ?_⟩
      · rw [← h.2, hsoL, List.append_assoc]
      · rw [← h.1, hvL x]
        simp only [List.mem_append, List.mem_singleton]
        tauto
      · refine List.Nodup.append hndL (List.nodup_singleton pid)
          (fun x hx1 hx2 => ?_)
        rw [List.mem_singleton] at hx2
        subst hx2
        exact hfreshL x hx1 (List.mem_append_right v (List.mem_singleton.2 rfl))
      · rcases List.mem_append.1 hx with hx | hx
        · exact fun hxv =>
            hfreshL x hx (List.mem_append_left [pid] hxv)
        · rw [List.mem_singleton] at hx
          subst hx
          exact hpv
      · exact List.mem_append_right ΔL (List.mem_singleton.2 rfl)

theorem filter_len_mono {α : Type} {p q : α → Bool}
    (h : ∀ x, q x = true → p x = true) :
    ∀ l : List α, (l.filter q).length ≤ (l.filter p).length := by
  intro l
  induction l with
  | nil => simp
  | cons a l ih =>
    rw [List.filter_cons, List.filter_cons]
    by_cases hq : q a = true
    · rw [if_pos hq, if_pos (h a hq)]
      simp only [List.length_cons]
      exact Nat.succ_le_succ ih
    · have hq2 : q a = false := by revert hq; cases q a <;> simp
      simp only [hq2, Bool.false_eq_true, if_false]
      by_cases hp : p a = true
      · rw [if_pos hp]
        simp only [List.length_cons]
        exact Nat.le_succ_of_le ih
      · have hp2 : p a = false := by revert hp; cases p a <;> simp
        simp only [hp2, Bool.false_eq_true, if_false]
        exact ih

theorem filter_len_strict {α : Type} {p q : α → Bool}
    (hmono : ∀ x, q x = true → p x = true) (a : α) (hpa : p a = true)
    (hqa : q a = false) :
    ∀ l : List α, a ∈ l → (l.filter q).length < (l.filter p).length := by
  intro l
  induction l with
  | nil => intro h; cases h
  | cons b l ih =>
    intro hmem
    rw [List.filter_cons, List.filter_cons]
    rcases List.mem_cons.1 hmem with hb | hb
    · subst hb
      rw [if_pos hpa]
      simp only [hqa, Bool.false_eq_true, if_false, List.length_cons]
      exact Nat.lt_succ_of_le (filter_len_mono hmono l)
    · by_cases hqb : q b = true
      · rw [if_pos hqb, if_pos (hmono b hqb)]
        simp only [List.length_cons]
        exact Nat.succ_lt_succ (ih hb)
      · have hqb2 : q b = false := by revert hqb; cases q b <;> simp
        simp only [hqb2, Bool.false_eq_true, if_false]
        by_cases hpb : p b = true
        · rw [if_pos hpb]
          simp only [List.length_cons]
          exact Nat.lt_succ_of_lt (ih hb)
        · have hpb2 : p b = false := by revert hpb; cases p b <;> simp
          simp only [hpb2, Bool.false_eq_true, if_false]
          exact ih hb

theorem countFresh_mono (U : List String) {v v' : List String}
    (h : ∀ x, x ∈ v → x ∈ v') : countFresh U v' ≤ countFresh U v := by
  refine filter_len_mono (fun x hx => ?_) U
  simp only [Bool.not_eq_true', decide_eq_false_iff_not] at hx ⊢
  exact fun hv => hx (h x hv)

theorem countFresh_insert_lt (U : List String) {v : List String}
    {pid : String} (hU : pid ∈ U) (hv : pid ∉ v) :
    countFresh U (v ++ [pid]) < countFresh U v := by
  refine filter_len_strict (fun x hx => ?_) pid ?_ ?_ U hU
  · simp only [Bool.not_eq_true', decide_eq_false_iff_not, List.mem_append,
      List.mem_singleton] at hx ⊢
    exact fun hxv => hx (Or.inl hxv)
  · simp [hv]
  · simp

theorem depsOfMd_subset_universe (md : List (String × PluginMetadata))
    (ids : List String) :
    ∀ id d, d ∈ depsOfMd md id → d ∈ depUniverse md ids := by
  intro id d hd
  rcases hm : mdLookup md id with _ | m
  · simp only [depsOfMd, hm] at hd
    cases hd
  · simp only [depsOfMd, hm] at hd
    refine List.mem_append_right ids ?_
    refine List.mem_flatten.2 ⟨m.getPluginDependencies, ?_, hd⟩
    exact List.mem_map.2 ⟨(id, m), mdLookup_mem hm, rfl⟩

/-- Fuel sufficiency of the dependency loop, given sufficiency of the
recursive visit at the same fuel. -/
theorem bdgGo_fuel (md : List (String × PluginMetadata)) (U : List String)
    (fuel : Nat)
    (IH : ∀ (pid : String) (v so : List String), pid ∈ U → pid ∉ v →
      countFresh U v < fuel →
      (buildDependencyGraph md fuel pid v so).isSome = true) :
    ∀ (items v so : List String), (∀ d ∈ items, d ∈ U) →
      countFresh U v < fuel →
      (bdgGo (buildDependencyGraph md fuel) items v so).isSome = true := by
  intro items
  induction items with
  | nil => intro v so _ _; simp [bdgGo]
  | cons it rest ihl =>
    intro v so hitems hcf
    simp only [bdgGo]
    by_cases hin : it ∈ v
    · rw [if_pos hin]
      exact ihl v so (fun d hd => hitems d (List.mem_cons_of_mem it hd)) hcf
    · rw [if_neg hin]
      have hsome := IH it v so (hitems it (List.mem_cons_self it rest)) hin hcf
      rcases hb : buildDependencyGraph md fuel it v so with _ | ⟨v₁, so₁⟩
      · rw [hb] at hsome; simp at hsome
      · obtain ⟨_, _, hvchar, _, _, _⟩ :=
          bdg_visited_facts md fuel it v so v₁ so₁ hin hb
        have hcf1 : countFresh U v₁ < fuel :=
          Nat.lt_of_le_of_lt
            (countFresh_mono U (fun x hx => (hvchar x).2 (Or.inl hx))) hcf
        exact ihl v₁ so₁ (fun d hd => hitems d (List.mem_cons_of_mem it hd))
          hcf1

/-- `buildDependencyGraph` succeeds whenever the fuel exceeds the
number of unvisited ids of a dependency-closed universe. -/
theorem bdg_fuel (md : List (String × PluginMetadata)) (U : List String)
    (hclosed : ∀ id d, d ∈ depsOfMd md id → d ∈ U) :
    ∀ (fuel : Nat) (pid : String) (v so : List String),
      pid ∈ U → pid ∉ v → countFresh U v < fuel →
      (buildDependencyGraph md fuel pid v so).isSome = true := by
  intro fuel
  induction fuel with
  | zero => intro pid v so _ _ hcf; exact absurd hcf (Nat.not_lt_zero _)
  | succ fuel ih =>
    intro pid v so hU hv hcf
    rw [buildDependencyGraph_succ]
    have hcf1 : countFresh U (v ++ [pid]) < fuel :=
      Nat.lt_of_lt_of_le (countFresh_insert_lt U hU hv)
        (Nat.lt_succ_iff.1 hcf)
    have hloop := bdgGo_fuel md U fuel ih (depsOfMd md pid) (v ++ [pid]) so
      (fun d hd => hclosed pid d hd) hcf1
    rcases hb : bdgGo (buildDependencyGraph md fuel) (depsOfMd md pid)
        (v ++ [pid]) so with _ | ⟨v₂, so₂⟩
    · rw [hb] at hloop; simp at hloop
    · simp

/-- With the computable fuel bound `suffFuel`, the sort always
returns a result, whatever the registry's dependency graph. -/
theorem sortPluginsByDependency_total (md : List (String × PluginMetadata))
    (ids : List String) :
    (sortPluginsByDependency md (suffFuel md ids) ids).isSome = true := by
  have hcf : countFresh (depUniverse md ids) [] < suffFuel md ids :=
    Nat.lt_succ_of_le (List.length_filter_le _ _)
  have h := bdgGo_fuel md (depUniverse md ids) (suffFuel md ids)
    (bdg_fuel md (depUniverse md ids) (depsOfMd_subset_universe md ids)
      (suffFuel md ids))
    ids [] [] (fun d hd => List.mem_append_left _ hd) hcf
  unfold sortPluginsByDependency
  rcases hb : bdgGo (buildDependencyGraph md (suffFuel md ids)) ids [] []
    with _ | p
  · rw [hb] at h; simp at h
  · simp

/-- Order bookkeeping of the dependency loop under a rank function
that strictly decreases along registered dependencies, relative to
the caller `P` that is in progress (visited, not yet output). -/
theorem bdgGo_topo (md : List (String × PluginMetadata))
    (rank : String → Nat) (fuel : Nat)
    (IH : ∀ (pid : String) (v so v' so' : List String), pid ∉ v →
      topoSorted md so → (∀ x ∈ so, x ∈ v) →
      (∀ x ∈ v, x ∉ so → rank pid < rank x) →
      buildDependencyGraph md fuel pid v so = some (v', so') →
      topoSorted md so' ∧ (∀ x ∈ so', x ∈ v') ∧
      (∃ Δ, so' = so ++ Δ ∧ (∀ x, x ∈ v' ↔ x ∈ v ∨ x ∈ Δ) ∧
        (∀ x ∈ Δ, rank x ≤ rank pid)) ∧
      (∀ x ∈ v', x ∉ so' → x ∈ v ∧ x ∉ so) ∧ pid ∈ so') :
    ∀ (P : String) (items v so v' so' : List String),
      (∀ d ∈ items, rank d < rank P) →
      topoSorted md so → (∀ x ∈ so, x ∈ v) → P ∈ v → P ∉ so →
      (∀ x ∈ v, x ∉ so → x = P ∨ rank P < rank x) →
      bdgGo (buildDependencyGraph md fuel) items v so = some (v', so') →
      topoSorted md so' ∧ (∀ x ∈ so', x ∈ v') ∧
      (∃ Δ, so' = so ++ Δ ∧ (∀ x, x ∈ v' ↔ x ∈ v ∨ x ∈ Δ) ∧
        (∀ x ∈ Δ, rank x < rank P)) ∧
      (∀ x ∈ v', x ∉ so' → x ∈ v ∧ x ∉ so) ∧
      (∀ d ∈ items, d ∈ so') := by
  intro P items
  induction items with
  | nil =>
    intro v so v' so' _ htopo hsov _ _ _ h
    simp only [bdgGo, Option.some.injEq, Prod.mk.injEq] at h
    obtain ⟨hv', hso'⟩ := h
    subst hv'
    subst hso'
    refine ⟨htopo, hsov, ⟨[], (List.append_nil so).symm,
      fun x => by simp, fun x hx => absurd hx (List.not_mem_nil x)⟩,
      fun x hx hxs => ⟨hx, hxs⟩, fun d hd => absurd hd (List.not_mem_nil d)⟩
  | cons it rest ihl =>
    intro v so v' so' hitems htopo hsov hPv hPso hinvP h
    have hit : rank it < rank P := hitems it (List.mem_cons_self it rest)
    have hrest : ∀ d ∈ rest, rank d < rank P :=
      fun d hd => hitems d (List.mem_cons_of_mem it hd)
    simp only [bdgGo] at h
    by_cases hin : it ∈ v
    · rw [if_pos hin] at h
      have hitso : it ∈ so := by
        by_cases hso : it ∈ so
        · exact hso
        · rcases hinvP it hin hso with he | hlt
          · exact absurd (he ▸ hit) (lt_irrefl _)
          · exact absurd (Nat.lt_trans hlt hit) (lt_irrefl _)
      obtain ⟨htopo', hsov', ⟨Δ, hso', hvchar, hrk⟩, hip, hrest'⟩ :=
        ihl v so v' so' hrest htopo hsov hPv hPso hinvP h
      refine ⟨htopo', hsov', ⟨Δ, hso', hvchar, hrk⟩, hip, fun d hd => ?_⟩
      rcases List.mem_cons.1 hd with hd | hd
      · subst hd
        rw [hso']
        exact List.mem_append_left Δ hitso
      · exact hrest' d hd
    · rw [if_neg hin] at h
      rcases hb : buildDependencyGraph md fuel it v so with _ | ⟨v₁, so₁⟩
      · rw [hb] at h; cases h
      · rw [hb] at h
        obtain ⟨htopo₁, hsov₁, ⟨Δ₁, hso₁, hvchar₁, hrk₁⟩, hip₁, hitso₁⟩ :=
          IH it v so v₁ so₁ hin htopo hsov
            (fun x hx hxs => by
              rcases hinvP x hx hxs with he | hlt
              · rw [he]; exact hit
              · exact Nat.lt_trans hit hlt)
            hb
        have hPso₁ : P ∉ so₁ := by
          rw [hso₁]
          intro hmem
          rcases List.mem_append.1 hmem with hm | hm
          · exact hPso hm
          · exact absurd (Nat.lt_of_le_of_lt (hrk₁ P hm) hit) (lt_irrefl _)
        obtain ⟨htopo₂, hsov₂, ⟨Δ₂, hso₂, hvchar₂, hrk₂⟩, hip₂, hrest₂⟩ :=
          ihl v₁ so₁ v' so' hrest htopo₁ hsov₁
            ((hvchar₁ P).2 (Or.inl hPv)) hPso₁
            (fun x hx hxs => hinvP x (hip₁ x hx hxs).1 (hip₁ x hx hxs).2)
            h
        refine ⟨htopo₂, hsov₂,
          ⟨Δ₁ ++ Δ₂, by rw [hso₂, hso₁, List.append_assoc], fun x => ?_,
            fun x hx => ?_⟩,
          fun x hx hxs => ?_, fun d hd => ?_⟩
        · rw [hvchar₂ x, hvchar₁ x]
          simp only [List.mem_append]
          tauto
        · rcases List.mem_append.1 hx with hx | hx
          · exact Nat.lt_of_le_of_lt (hrk₁ x hx) hit
          · exact hrk₂ x hx
        · have h2 := hip₂ x hx hxs
          exact hip₁ x h2.1 h2.2
        · rcases List.mem_cons.1 hd with hd | hd
          · subst hd
            rw [hso₂]
            exact List.mem_append_left Δ₂ hitso₁
          · exact hrest₂ d hd

/-- Order bookkeeping of `buildDependencyGraph` under a rank function
that strictly decreases along registered dependencies: the output
stays topologically sorted, every output id is visited, the appended
block has ranks at most the visited id's, in-progress ids only
shrink, and the visited id itself is output. -/
theorem bdg_topo (md : List (String × PluginMetadata))
    (rank : String → Nat)
    (hrank : ∀ id d, d ∈ depsOfMd md id → rank d < rank id) :
    ∀ (fuel : Nat) (pid : String) (v so v' so' : List String), pid ∉ v →
      topoSorted md so → (∀ x ∈ so, x ∈ v) →
      (∀ x ∈ v, x ∉ so → rank pid < rank x) →
      buildDependencyGraph md fuel pid v so = some (v', so') →
      topoSorted md so' ∧ (∀ x ∈ so', x ∈ v') ∧
      (∃ Δ, so' = so ++ Δ ∧ (∀ x, x ∈ v' ↔ x ∈ v ∨ x ∈ Δ) ∧
        (∀ x ∈ Δ, rank x ≤ rank pid)) ∧
      (∀ x ∈ v', x ∉ so' → x ∈ v ∧ x ∉ so) ∧ pid ∈ so' := by
  intro fuel
  induction fuel with
  | zero => intro pid v so v' so' _ _ _ _ h; cases h
  | succ fuel ih =>
    intro pid v so v' so' hpv htopo hsov hinv h
    rw [buildDependencyGraph_succ] at h
    rcases hb : bdgGo (buildDependencyGraph md fuel) (depsOfMd md pid)
        (v ++ [pid]) so with _ | ⟨v₂, so₂⟩
    · rw [hb] at h; cases h
    · rw [hb] at h
      simp only [Option.some.injEq, Prod.mk.injEq] at h
      obtain ⟨htopo₂, hsov₂, ⟨Δ₂, hso₂, hvchar₂, hrk₂⟩, hip₂, hdeps⟩ :=
        bdgGo_topo md rank fuel ih pid (depsOfMd md pid) (v ++ [pid]) so
          v₂ so₂ (fun d hd => hrank pid d hd) htopo
          (fun x hx => List.mem_append_left _ (hsov x hx))
          (List.mem_append_right v (List.mem_singleton.2 rfl))
          (fun hps => hpv (hsov pid hps))
          (fun x hx hxs => by
            rcases List.mem_append.1 hx with hxv | hxp
            · exact Or.inr (hinv x hxv hxs)
            · exact Or.inl (List.mem_singleton.1 hxp))
          hb
      have htopo' : topoSorted md (so₂ ++ [pid]) := by
        intro l₁ x l₂ hsplit
        rcases append_split_cons hsplit with ⟨t, h1, _⟩ | ⟨p, hp1, hp2⟩
        · exact htopo₂ l₁ x t h1
        · rcases p with _ | ⟨y, p'⟩
          · simp only [List.nil_append] at hp2
            injection hp2 with hx hl
            rw [List.append_nil] at hp1
            subst hp1
            intro d hd
            rw [← hx] at hd
            exact hdeps d hd
          · simp only [List.cons_append] at hp2
            injection hp2 with _ h2
            exact absurd h2.symm (by simp)
      refine ⟨h.2 ▸ htopo', fun x hx => ?_,
        ⟨Δ₂ ++ [pid], ?_, fun x => ?_, fun x hx => ?_⟩,
        fun x hx hxs => ?_, ?_⟩
      · rw [← h.2] at hx
        rw [← h.1]
        rcases List.mem_append.1 hx with hx | hx
        · exact hsov₂ x hx
        · rw [List.mem_singleton] at hx
          subst hx
          exact (hvchar₂ x).2 (Or.inl (List.mem_append_right v
            (List.mem_singleton.2 rfl)))
      · rw [← h.2, hso₂, List.append_assoc]
      · rw [← h.1, hvchar₂ x]
        simp only [List.mem_append, List.mem_singleton]
        tauto
      · rcases List.mem_append.1 hx with hx | hx
        · exact Nat.le_of_lt (hrk₂ x hx)
        · rw [List.mem_singleton] at hx
          subst hx
          exact Nat.le_refl _
      · rw [← h.1] at hx
        rw [← h.2] at hxs
        have hxs₂ : x ∉ so₂ :=
          fun hmem => hxs (List.mem_append_left [pid] hmem)
        have hxp : x ≠ pid := fun he => hxs
          (List.mem_append_right so₂ (List.mem_singleton.2 he))
        have h2 := hip₂ x hx hxs₂
        refine ⟨?_, h2.2⟩
        rcases List.mem_append.1 h2.1 with hxv | hxp'
        · exact hxv
        · exact absurd (List.mem_singleton.1 hxp') hxp
      · rw [← h.2]
        exact List.mem_append_right so₂ (List.mem_singleton.2 rfl)

/-- The top-level loop of the sort preserves topological sortedness
when started with visited = output. -/
theorem bdgGo_topo_top (md : List (String × PluginMetadata))
    (rank : String → Nat) (fuel : Nat)
    (IH : ∀ (pid : String) (v so v' so' : List String), pid ∉ v →
      topoSorted md so → (∀ x ∈ so, x ∈ v) →
      (∀ x ∈ v, x ∉ so → rank pid < rank x) →
      buildDependencyGraph md fuel pid v so = some (v', so') →
      topoSorted md so' ∧ (∀ x ∈ so', x ∈ v') ∧
      (∃ Δ, so' = so ++ Δ ∧ (∀ x, x ∈ v' ↔ x ∈ v ∨ x ∈ Δ) ∧
        (∀ x ∈ Δ, rank x ≤ rank pid)) ∧
      (∀ x ∈ v', x ∉ so' → x ∈ v ∧ x ∉ so) ∧ pid ∈ so') :
    ∀ (items v so v' so' : List String),
      topoSorted md so → (∀ x ∈ so, x ∈ v) → (∀ x ∈ v, x ∈ so) →
      bdgGo (buildDependencyGraph md fuel) items v so = some (v', so') →
      topoSorted md so' := by
  intro items
  induction items with
  | nil =>
    intro v so v' so' htopo _ _ h
    simp only [bdgGo, Option.some.injEq, Prod.mk.injEq] at h
    rw [← h.2]
    exact htopo
  | cons it rest ihl =>
    intro v so v' so' htopo hsov hvso h
    simp only [bdgGo] at h
    by_cases hin : it ∈ v
    · rw [if_pos hin] at h
      exact ihl v so v' so' htopo hsov hvso h
    · rw [if_neg hin] at h
      rcases hb : buildDependencyGraph md fuel it v so with _ | ⟨v₁, so₁⟩
      · rw [hb] at h; cases h
      · rw [hb] at h
        obtain ⟨htopo₁, hsov₁, _, hip₁, _⟩ :=
          IH it v so v₁ so₁ hin htopo hsov
            (fun x hx hxs => absurd (hvso x hx) hxs) hb
        refine ihl v₁ so₁ v' so' htopo₁ hsov₁ (fun x hx => ?_) h
        by_cases hxs : x ∈ so₁
        · exact hxs
        · exact absurd (hvso x (hip₁ x hx hxs).1) (hip₁ x hx hxs).2

/-- Under a rank function witnessing acyclicity, any successful sort
is topologically sorted. -/
theorem sortPluginsByDependency_topo (md : List (String × PluginMetadata))
    (rank : String → Nat)
    (hrank : ∀ id d, d ∈ depsOfMd md id → rank d < rank id)
    (fuel : Nat) (ids out : List String)
    (h : sortPluginsByDependency md fuel ids = some out) :
    topoSorted md out := by
  unfold sortPluginsByDependency at h
  rcases hb : bdgGo (buildDependencyGraph md fuel) ids [] []
    with _ | ⟨v', so'⟩
  · rw [hb] at h; cases h
  · rw [hb] at h
    injection h with h2
    subst h2
    exact bdgGo_topo_top md rank fuel (bdg_topo md rank hrank fuel)
      ids [] [] v' so'
      (fun l₁ x l₂ hsplit => absurd hsplit (by simp))
      (fun x hx => absurd hx (List.not_mem_nil x))
      (fun x hx => absurd hx (List.not_mem_nil x))
      hb

/-- C2: for an acyclic registry — witnessed by a rank function that
strictly decreases from each plugin to its registered dependencies —
`sortPluginsByDependency` returns a sequence in which every id
appears after all of its registered dependencies; manager-wide
`shutdown` iterates the exact reverse of the sorted sequence,
deactivating each active plugin then unloading it, continuing past
individual failures; and on the chain `C → B → A` the sort is
`[A, B, C]` and the shutdown trace processes `C`, then `B`, then
`A`, never the reverse. -/
theorem C2_sort_topological_shutdown_reverse :
    (∀ (md : List (String × PluginMetadata)) (rank : String → Nat)
        (fuel : Nat) (ids out : List String),
      (∀ id d, d ∈ depsOfMd md id → rank d < rank id) →
      sortPluginsByDependency md fuel ids = some out →
      topoSorted md out) ∧
    (∀ (env : Env) (fuel : Nat) (s : MS) (sorted : List String),
      s.m_initialized = true →
      sortPluginsByDependency s.m_pluginMetadata fuel s.m_plugins =
        some sorted →
      shutdown env fuel s =
        (shutdownGo env fuel s sorted.reverse).map (fun s₁ =>
          { s₁ with
            m_pluginLoaders := []
            m_plugins := []
            m_pluginMetadata := []
            m_pluginStates := fun _ => PluginState.NotLoaded
            m_initialized := false })) ∧
    (sortPluginsByDependency chainS.m_pluginMetadata 10 chainS.m_plugins =
        some ["A", "B", "C"] ∧
      (shutdown okEnv 10 chainS).map MS.trace = some
        [Event.hookDeactivate "C", Event.pluginDeactivated "C",
         Event.hookShutdown "C", Event.busPurge "C",
         Event.loaderRelease "C", Event.pluginUnloaded "C",
         Event.hookDeactivate "B", Event.pluginDeactivated "B",
         Event.hookDeactivate "A", Event.pluginDeactivated "A"]) := by
  refine ⟨fun md rank fuel ids out hrank h =>
      sortPluginsByDependency_topo md rank hrank fuel ids out h,
    fun env fuel s sorted hinit hsort => ?_, by decide, by decide⟩
  simp only [shutdown, hinit, Bool.not_true, Bool.false_eq_true, if_false,
    hsort]
  rcases hg : shutdownGo env fuel s sorted.reverse with _ | s₁
  · simp
  · simp

/-- C2 witness: on the chain registry, with the explicit rank
`A ↦ 0, B ↦ 1, C ↦ 2`, the sorted output `[A, B, C]` places every
plugin after its registered dependencies. -/
theorem C2_witness :
    topoSorted chainS.m_pluginMetadata ["A", "B", "C"] := by
  refine C2_sort_topological_shutdown_reverse.1 chainS.m_pluginMetadata
    (fun q => if q = "A" then 0 else if q = "B" then 1 else 2) 10
    chainS.m_plugins ["A", "B", "C"] ?_ (by decide)
  intro id d hd
  by_cases hA : id = "A"
  · subst hA
    have he : depsOfMd chainS.m_pluginMetadata "A" = [] := by decide
    rw [he] at hd
    cases hd
  · by_cases hB : id = "B"
    · subst hB
      have he : depsOfMd chainS.m_pluginMetadata "B" = ["A"] := by decide
      rw [he] at hd
      rw [List.mem_singleton] at hd
      subst hd
      decide
    · by_cases hC : id = "C"
      · subst hC
        have he : depsOfMd chainS.m_pluginMetadata "C" = ["B"] := by decide
        rw [he] at hd
        rw [List.mem_singleton] at hd
        subst hd
        decide
      · have he : depsOfMd chainS.m_pluginMetadata id = [] := by
          simp [depsOfMd, mdLookup, chainS, hA, hB, hC]
        rw [he] at hd
        cases hd

/-- C10: the sort terminates on every registry, cyclic or
self-referential included — the computable bound `suffFuel` always
suffices, because each id is marked visited before its dependencies
are traversed and already-visited ids are skipped — and any
successful sort lists each id at most once, the output ids being
exactly the visited ids. -/
theorem C10_sort_total_unique :
    (∀ (md : List (String × PluginMetadata)) (ids : List String),
      (sortPluginsByDependency md (suffFuel md ids) ids).isSome = true) ∧
    (∀ (md : List (String × PluginMetadata)) (fuel : Nat)
        (ids out : List String),
      sortPluginsByDependency md fuel ids = some out → out.Nodup) ∧
    (∀ (md : List (String × PluginMetadata)) (fuel : Nat)
        (ids v' out : List String),
      bdgGo (buildDependencyGraph md fuel) ids [] [] = some (v', out) →
      ∀ x, x ∈ v' ↔ x ∈ out) := by
  refine ⟨sortPluginsByDependency_total, fun md fuel ids out hout => ?_,
    fun md fuel ids v' out hb x => ?_⟩
  · unfold sortPluginsByDependency at hout
    rcases hb : bdgGo (buildDependencyGraph md fuel) ids [] []
      with _ | ⟨v', so'⟩
    · rw [hb] at hout; cases hout
    · rw [hb] at hout
      injection hout with h2
      obtain ⟨Δ, hso, _, hnd, _⟩ := bdgGo_visited_facts md fuel
        (bdg_visited_facts md fuel) ids [] [] v' so' hb
      rw [← h2, hso, List.nil_append]
      exact hnd
  · obtain ⟨Δ, hso, hvchar, _, _⟩ := bdgGo_visited_facts md fuel
      (bdg_visited_facts md fuel) ids [] [] v' out hb
    rw [List.nil_append] at hso
    subst hso
    rw [hvchar x]
    simp

/-- C10 witness: on the registry whose `L` depends on itself, the
sort with the computed sufficient fuel returns, and on the chain
registry the successful output `[A, B, C]` lists each id once. -/
theorem C10_witness :
    (sortPluginsByDependency cyclMd (suffFuel cyclMd ["L"])
        ["L"]).isSome = true ∧
    (["A", "B", "C"] : List String).Nodup :=
  ⟨C10_sort_total_unique.1 cyclMd ["L"],
   C10_sort_total_unique.2.1 chainS.m_pluginMetadata 10 chainS.m_plugins
     ["A", "B", "C"] (by decide)⟩

end AIPlay
